import Mathlib

/-!
Verification of the oplog batching and parallel-apply engine
(`src/mongo/db/repl/sync_tail.cpp`).

Each C++ routine that the claims depend on is shallowly embedded as an
executable Lean function.  External collaborators (hash functions, the
storage engine, the apply callbacks, the sync-source connection) are
modelled as explicit parameters or oracles, so that the control flow of
the embedded routine itself is exactly the control flow of the source.
-/

namespace MongoRepl

/-! ## Common status model -/

/-- Error codes used by the embedded routines (subset of mongo ErrorCodes). -/
inductive ErrorCode where
  | badValue
  | writeConflict
  | emptyArrayOperation
  | cannotApplyOplogWhilePrimary
  | namespaceNotFound
  | otherCode (n : Nat)
  deriving Repr, DecidableEq

/-- A mongo Status: OK or an error code. -/
inductive Status where
  | ok
  | error (code : ErrorCode)
  deriving Repr, DecidableEq

/-- First-character test on a string, modelling C++ `s[0] == c` (an empty
string never matches, as indexing its terminator yields the null char). -/
def strHeadIs (s : String) (c : Char) : Bool :=
  match s.data with
  | [] => false
  | d :: _ => d = c

/-- Everything after the first dot of a char list; `none` when there is no dot. -/
def afterFirstDot : List Char → Option (List Char)
  | [] => none
  | c :: rest => if c = '.' then some rest else afterFirstDot rest

/-- Collection part of a namespace string: everything after the first dot
(`nsToCollectionSubstring`).  Modelled from the spec: the helper itself lives in
`namespace_string.h`, which is not part of this repository snapshot; `sync_tail.cpp`
only ever compares its result with the literal "system.indexes". -/
def nsToCollectionSubstring (ns : String) : String :=
  match afterFirstDot ns.data with
  | some rest => String.mk rest
  | none => ""

/-! ## Partitioner (`fillWriterVectors`, lines 569-613) -/

/-- Per-collection properties cached by `CachedCollectionProperties`:
whether the collection is capped and whether it has a non-null default
collator. -/
structure CollectionProperties where
  isCapped : Bool
  hasNonNullCollator : Bool
  deriving Repr, DecidableEq

/-- An oplog entry as seen by the partitioner: namespace, op type, the `_id`
BSON element (abstracted to a `Nat` token) and the mutable
`isForCappedCollection` flag. -/
structure POp where
  ns : String
  opType : String
  idElem : Nat
  isForCappedCollection : Bool
  deriving Repr, DecidableEq

/-- OplogEntry::isCrudOpType — op type is one of `d`, `i`, `u`. -/
def POp.isCrudOpType (op : POp) : Bool :=
  op.opType = "d" || op.opType = "i" || op.opType = "u"

/-- Environment of `fillWriterVectors`: the storage-engine support matrix,
the number of writer slots, the (possibly time-varying) per-collection
property lookup that `getCollectionPropertiesImpl` performs under a shared
lock, and the external 32-bit hash functions (`StringMapTraits` namespace
hash, `SimpleBSONElementComparator` element hash, `MurmurHash3_x86_32`). -/
structure FwvCtx where
  supportsDocLocking : Bool
  numWriters : Nat
  collPropsImpl : Nat → String → CollectionProperties
  hashNs : String → Nat
  idHash : Nat → Nat
  murmurMix : Nat → Nat → Nat

/-- State of the per-batch `CachedCollectionProperties` cache, plus a call
counter feeding the time-varying underlying lookup. -/
structure CacheState where
  cache : List (String × CollectionProperties)
  calls : Nat

/-- CachedCollectionProperties::getCollectionProperties — consult the cache,
and on a miss run the underlying lookup and record its result. -/
def getCollectionProperties (impl : Nat → String → CollectionProperties)
    (st : CacheState) (ns : String) : CollectionProperties × CacheState :=
  match st.cache.lookup ns with
  | some p => (p, st)
  | none =>
      let p := impl st.calls ns
      (p, ⟨(ns, p) :: st.cache, st.calls + 1⟩)

/-- Hash computed for one op by `fillWriterVectors`: start from the namespace
hash, and for CRUD ops on a doc-locking engine whose collection is neither
capped nor collated, mix in the hashed `_id`. `props?` is `some` exactly when
the op was a CRUD op and the property lookup ran. -/
def opSlotHash (ctx : FwvCtx) (op : POp) (props? : Option CollectionProperties) : Nat :=
  match props? with
  | some props =>
      if ctx.supportsDocLocking && !props.isCapped && !props.hasNonNullCollator then
        ctx.murmurMix (ctx.idHash op.idElem) (ctx.hashNs op.ns)
      else ctx.hashNs op.ns
  | none => ctx.hashNs op.ns

/-- The only mutation `fillWriterVectors` performs on an op: insert ops on a
capped collection get `isForCappedCollection` set to `true`. -/
def markCapped (op : POp) (props? : Option CollectionProperties) : POp :=
  match props? with
  | some props =>
      if op.opType = "i" && props.isCapped then { op with isForCappedCollection := true }
      else op
  | none => op

/-- Per-op results of the `fillWriterVectors` loop: the (possibly marked) ops,
the writer-slot index chosen for each op, the collection properties consulted
for each op (`none` for non-CRUD ops), and the final cache state. -/
structure FwvOut where
  outOps : List POp
  slots : List Nat
  propsUsed : List (Option CollectionProperties)
  finalState : CacheState

/-- The property lookup performed for one op: CRUD ops consult the cache
(possibly running the underlying lookup), other ops skip it. -/
def fwvStep (ctx : FwvCtx) (st : CacheState) (op : POp) :
    Option CollectionProperties × CacheState :=
  if op.isCrudOpType then
    (some (getCollectionProperties ctx.collPropsImpl st op.ns).1,
     (getCollectionProperties ctx.collPropsImpl st op.ns).2)
  else (none, st)

/-- The loop body of `fillWriterVectors`, threading the property cache
left-to-right through the batch. -/
def fwvGo (ctx : FwvCtx) (st : CacheState) : List POp → FwvOut
  | [] => ⟨[], [], [], st⟩
  | op :: rest =>
      let tail := fwvGo ctx (fwvStep ctx st op).2 rest
      ⟨markCapped op (fwvStep ctx st op).1 :: tail.outOps,
       (opSlotHash ctx op (fwvStep ctx st op).1 % ctx.numWriters) :: tail.slots,
       (fwvStep ctx st op).1 :: tail.propsUsed,
       tail.finalState⟩

/-- writer.push_back(&op) — append op index `i` to the vector of slot `slot`. -/
def pushSlot (vecs : Nat → List Nat) (slot i : Nat) : Nat → List Nat :=
  Function.update vecs slot (vecs slot ++ [i])

/-- Build the writer vectors by pushing each op's index onto its slot, in
batch order (the ops are identified by their index into the batch, modelling
the `&op` pointers). -/
def buildVecsGo (i : Nat) (vecs : Nat → List Nat) : List Nat → (Nat → List Nat)
  | [] => vecs
  | s :: rest => buildVecsGo (i + 1) (pushSlot vecs s i) rest

/-- Result of `fillWriterVectors`: the updated batch, the slot assignment,
the properties consulted per op, and the writer vectors (slot ↦ list of op
indices, in push order). -/
structure PartitionResult where
  outOps : List POp
  slots : List Nat
  propsUsed : List (Option CollectionProperties)
  vecs : Nat → List Nat

/-- fillWriterVectors (sync_tail.cpp lines 569-613). -/
def fillWriterVectors (ctx : FwvCtx) (ops : List POp) : PartitionResult :=
  let r := fwvGo ctx ⟨[], 0⟩ ops
  ⟨r.outOps, r.slots, r.propsUsed, buildVecsGo 0 (fun _ => []) r.slots⟩

/-! ## Batch assembler (`SyncTail::tryPopAndWaitForMore`, lines 824-913) -/

/-- A raw entry peeked from the background-sync queue, with the fields that
`tryPopAndWaitForMore` inspects after the in-place parse: whether `raw` is
empty (the drained-sentinel), namespace, op type, the optional `v` field,
the wall-clock time of the `ts` field, and the BSON object size. -/
structure Entry where
  rawEmpty : Bool
  ns : String
  opType : String
  version : Option Int
  ts : Nat
  size : Nat
  deriving Repr, DecidableEq

/-- OplogEntry::kOplogVersion.  Modelled from the spec: the constant lives in
`oplog_entry.h`, not in this repository snapshot; the spec fixes the single
supported version to 2. -/
def kOplogVersion : Int := 2

/-- Batch limits read once per batch by the `OpQueueBatcher`. -/
structure BatchLimits where
  bytes : Nat
  ops : Nat
  slaveDelayLatestTimestamp : Option Nat
  deriving Repr, DecidableEq

/-- Modelled from the spec: `OpQueue` is declared in `sync_tail.h`, which is
not part of this repository snapshot.  Per spec §3 it is an ordered sequence
of entries plus a byte count, a count, and a `mustShutdown` flag; the byte
count tracks the summed BSON sizes and the count the number of entries. -/
structure OpQueue where
  entries : List Entry
  mustShutdown : Bool
  deriving Repr, DecidableEq

def OpQueue.getBytes (q : OpQueue) : Nat := (q.entries.map (fun e => e.size)).sum

def OpQueue.getCount (q : OpQueue) : Nat := q.entries.length

/-- Version validation of a parsed entry (lines 858-874): a missing `v` field
means version 1; anything other than `kOplogVersion` is fatal.  Entries with
empty `raw` (the sentinel) skip the check. -/
def entryVersionOk (e : Entry) : Bool :=
  e.rawEmpty || e.version.getD 1 == kOplogVersion

/-- Slave-delay filter (lines 876-885): active when a latest-allowed
timestamp is configured and the entry is newer than it. -/
def slaveDelayed (limits : BatchLimits) (e : Entry) : Bool :=
  match limits.slaveDelayLatestTimestamp with
  | some cutoff => decide (cutoff < e.ts)
  | none => false

/-- Ops that must be processed one at a time (lines 888-893): the
drained-sentinel (empty `raw`), commands, and ops on a `system.indexes`
collection (index builds). -/
def isStandAloneEntry (e : Entry) : Bool :=
  e.rawEmpty || strHeadIs e.opType 'c' ||
    (!(e.ns == "") && nsToCollectionSubstring e.ns == "system.indexes")

/-- How one call to `tryPopAndWaitForMore` ended: a fatal oplog-version
mismatch (`fassertFailedNoTrace(18820)`), or a normal return whose Bool is
the C++ return value (`true` = end the batch). -/
inductive StepOutcome where
  | fatalVersion (found : Int)
  | ret (endBatch : Bool)
  deriving Repr, DecidableEq

/-- Result of one call to `tryPopAndWaitForMore`: the updated batch, the
upstream queue after the call (consume removes its head), the outcome, and
the observable side effects (consumed an entry / slept 1s / waitForMore). -/
structure StepResult where
  batch : OpQueue
  queue : List Entry
  outcome : StepOutcome
  consumed : Bool
  sleptOneSec : Bool
  waitedForMore : Bool
  deriving Repr, DecidableEq

/-- SyncTail::tryPopAndWaitForMore (lines 824-913).  `queue` is the upstream
background-sync queue (its head is what `peek` sees), `batch` is the `ops`
out-parameter. -/
def tryPopAndWaitForMore (inShutdown : Bool) (queue : List Entry) (batch : OpQueue)
    (limits : BatchLimits) : StepResult :=
  match queue with
  | [] =>
      if batch.entries.isEmpty then
        if inShutdown then
          ⟨{ batch with mustShutdown := true }, queue, .ret true, false, false, false⟩
        else
          ⟨batch, queue, .ret true, false, false, true⟩
      else
        ⟨batch, queue, .ret true, false, false, false⟩
  | e :: rest =>
      if !batch.entries.isEmpty && decide (limits.bytes < batch.getBytes + e.size) then
        ⟨batch, queue, .ret true, false, false, false⟩
      else
        let ops1 : OpQueue := { batch with entries := batch.entries ++ [e] }
        if !entryVersionOk e then
          ⟨ops1, queue, .fatalVersion (e.version.getD 1), false, false, false⟩
        else if slaveDelayed limits e then
          let ops2 : OpQueue := { ops1 with entries := ops1.entries.dropLast }
          ⟨ops2, queue, .ret true, false, ops2.entries.isEmpty, false⟩
        else if isStandAloneEntry e then
          if ops1.getCount == 1 then
            ⟨ops1, rest, .ret true, true, false, false⟩
          else
            ⟨{ ops1 with entries := ops1.entries.dropLast }, queue, .ret true, false, false, false⟩
        else
          ⟨ops1, rest, .ret (decide (limits.ops ≤ ops1.getCount)), true, false, false⟩

/-- The batch-assembly loop of `OpQueueBatcher::run` (line 711): call
`tryPopAndWaitForMore` until it returns true, starting from an empty batch.
`fuel` bounds the iteration count; every continue consumes one upstream
entry, so `queue.length + 1` is always enough.  Returns `none` on the fatal
version mismatch (or exhausted fuel), otherwise the assembled batch and the
remaining upstream queue. -/
def buildBatchGo (inShutdown : Bool) (limits : BatchLimits) :
    Nat → List Entry → OpQueue → Option (OpQueue × List Entry)
  | 0, _, _ => none
  | fuel + 1, queue, batch =>
      let r := tryPopAndWaitForMore inShutdown queue batch limits
      match r.outcome with
      | .fatalVersion _ => none
      | .ret true => some (r.batch, r.queue)
      | .ret false => buildBatchGo inShutdown limits fuel r.queue r.batch

/-- Assemble one batch from the given upstream queue, starting empty. -/
def buildBatch (inShutdown : Bool) (limits : BatchLimits) (queue : List Entry) :
    Option (OpQueue × List Entry) :=
  buildBatchGo inShutdown limits (queue.length + 1) queue ⟨[], false⟩

/-! ## Single-apply dispatcher (`SyncTail::syncApply`, lines 286-392) -/

/-- An op as seen by `syncApply`: the `ns` string field and the `op` field. -/
structure SOp where
  ns : String
  opType : String
  deriving Repr, DecidableEq

/-- The local `isCrudOpType` helper (lines 154-162): `d`, `i` or `u`, with
the second character being the terminator. -/
def isCrudOpTypeStr (opType : String) : Bool :=
  opType = "d" || opType = "i" || opType = "u"

/-- One iteration of an apply callback inside the write-conflict retry loop:
either it throws a WriteConflictException, or it returns a Status. -/
inductive AttemptOutcome where
  | throwsWriteConflict
  | returns (s : Status)
  deriving Repr, DecidableEq

/-- Events visible on the command path of `syncApply` (lines 313-325). -/
inductive CmdEvent where
  | appliedCommand (s : Status)
  | incrementedOpsApplied
  | threwWriteConflict
  deriving Repr, DecidableEq

/-- The MONGO_WRITE_CONFLICT_RETRY_LOOP around the command path: on each
iteration `applyCommandInLock` either throws a write conflict (retry) or
returns a status, in which case `incrementOpsAppliedStats()` runs and the
status is returned.  `fuel` bounds the retries; `none` models the loop
spinning forever. -/
def commandRetryLoop (oracle : Nat → AttemptOutcome) :
    Nat → Nat → Option (Status × List CmdEvent)
  | 0, _ => none
  | fuel + 1, attempt =>
      match oracle attempt with
      | .throwsWriteConflict =>
          (commandRetryLoop oracle fuel (attempt + 1)).map
            (fun r => (r.1, .threwWriteConflict :: r.2))
      | .returns s => some (s, [.appliedCommand s, .incrementedOpsApplied])

/-- The MONGO_WRITE_CONFLICT_RETRY_LOOP around the noop/index-build and CRUD
paths: the `applyOp` wrapper turns a returned WriteConflict status into a
thrown WriteConflictException (lines 335-337), so both a throw and a
WriteConflict status retry. -/
def opRetryLoop (oracle : Nat → AttemptOutcome) : Nat → Nat → Option Status
  | 0, _ => none
  | fuel + 1, attempt =>
      match oracle attempt with
      | .throwsWriteConflict => opRetryLoop oracle fuel (attempt + 1)
      | .returns s =>
          if s = .error .writeConflict then opRetryLoop oracle fuel (attempt + 1)
          else some s

/-- Which branch of `syncApply` handled the op. -/
inductive ApplyPath where
  | skippedBadNs
  | command
  | noop
  | indexBuild
  | crud
  | badOpType
  deriving Repr, DecidableEq

/-- Observable result of `syncApply`: the returned status, the branch taken,
the command-path event list (empty on other paths), and whether the
"skipping bad op" error was logged. -/
structure SyncApplyRes where
  status : Status
  path : ApplyPath
  cmdEvents : List CmdEvent
  loggedBadOp : Bool
  deriving Repr, DecidableEq

/-- SyncTail::syncApply (lines 286-392).  `cmdOracle` models successive
`applyCommandInLock` iterations, `opOracle` successive
`applyOperationInLock` iterations; `none` models an unterminated
write-conflict retry loop. -/
def syncApply (op : SOp) (cmdOracle opOracle : Nat → AttemptOutcome) (fuel : Nat) :
    Option SyncApplyRes :=
  let isCommand := strHeadIs op.opType 'c'
  let isNoOp := strHeadIs op.opType 'n'
  if op.ns = "" || strHeadIs op.ns '.' then
    some ⟨.ok, .skippedBadNs, [], !isNoOp⟩
  else if isCommand then
    (commandRetryLoop cmdOracle fuel 0).map (fun r => ⟨r.1, .command, r.2, false⟩)
  else if isNoOp || (strHeadIs op.opType 'i' && nsToCollectionSubstring op.ns == "system.indexes") then
    (opRetryLoop opOracle fuel 0).map
      (fun s => ⟨s, if isNoOp then .noop else .indexBuild, [], false⟩)
  else if isCrudOpTypeStr op.opType then
    (opRetryLoop opOracle fuel 0).map (fun s => ⟨s, .crud, [], false⟩)
  else
    some ⟨.error .badValue, .badOpType, [], false⟩

/-! ## Apply worker (`multiSyncApply_noAbort`, lines 1047-1146) -/

/-- An oplog entry as seen by the apply worker: namespace, op type, the
capped-collection mark, the BSON size of the `o` payload, and an abstract
token identifying the raw document. -/
structure MOp where
  ns : String
  opType : String
  isForCappedCollection : Bool
  oSize : Nat
  rawId : Nat
  deriving Repr, DecidableEq

/-- The argument of one `syncApply` invocation made by the worker: either a
single op's raw document, or the synthesized grouped-insert document (all
top-level fields of the group's first op except `o`, with `o` replaced by
the array of the group's `o` payloads) — determined by the group list. -/
inductive ApplyArg where
  | single (op : MOp)
  | grouped (group : List MOp)
  deriving Repr, DecidableEq

/-- The `std::find_if` scan of lines 1077-1086, returning how many ops past
the group's first op are included.  The side-effecting predicate stops at
the first op that is not an insert, is on a different namespace, would push
the accumulated payload bytes over `maxBytes` (`insertVectorMaxBytes`), or
would make the count of scanned ops reach 64; its `batchSize`/`batchCount`
accumulators only advance when the earlier disjuncts are false. -/
def groupExtentGo (maxBytes : Nat) (ns : String) :
    Nat → Nat → List MOp → Nat
  | _, _, [] => 0
  | batchSize, batchCount, n :: rest =>
      if !strHeadIs n.opType 'i' then 0
      else if n.ns ≠ ns then 0
      else if maxBytes < batchSize + n.oSize then 0
      else if 64 ≤ batchCount + 1 then 0
      else 1 + groupExtentGo maxBytes ns (batchSize + n.oSize) (batchCount + 1) rest

/-- The iteration of `multiSyncApply_noAbort` from op index `i` with the
`doNotGroupBeforePoint` cursor at index `dngb`, producing the sequence of
`syncApply` invocations with their success, and whether the worker returned
OK.  `oracle` decides whether an invocation succeeds (`false` covers both a
non-OK status and a thrown DBException, which for a grouped insert falls
back to a single-op apply and for a single op ends the worker with that
error). -/
def applyLoop (oracle : ApplyArg → Bool) (maxBytes : Nat) (ops : List MOp)
    (i dngb : Nat) : List (ApplyArg × Bool) × Bool :=
  match _hget : ops.get? i with
  | none => ([], true)
  | some entry =>
      let k? : Option Nat :=
        if strHeadIs entry.opType 'i' && !entry.isForCappedCollection && decide (dngb < i) then
          let k := groupExtentGo maxBytes entry.ns 0 0 (ops.drop (i + 1))
          if 0 < k then some k else none
        else none
      match k? with
      | some k =>
          let group := entry :: (ops.drop (i + 1)).take k
          if oracle (.grouped group) then
            let r := applyLoop oracle maxBytes ops (i + k + 1) dngb
            ((.grouped group, true) :: r.1, r.2)
          else if oracle (.single entry) then
            let r := applyLoop oracle maxBytes ops (i + 1) (i + k)
            ((.grouped group, false) :: (.single entry, true) :: r.1, r.2)
          else
            ([(.grouped group, false), (.single entry, false)], false)
      | none =>
          if oracle (.single entry) then
            let r := applyLoop oracle maxBytes ops (i + 1) dngb
            ((.single entry, true) :: r.1, r.2)
          else
            ([(.single entry, false)], false)
termination_by ops.length - i
decreasing_by
  · have : i < ops.length := by
      rcases List.get?_eq_some.mp _hget with ⟨h, _⟩
      exact h
    omega
  · have : i < ops.length := by
      rcases List.get?_eq_some.mp _hget with ⟨h, _⟩
      exact h
    omega
  · have : i < ops.length := by
      rcases List.get?_eq_some.mp _hget with ⟨h, _⟩
      exact h
    omega

/-- Applying a list of ops strictly one at a time, stopping at the first
failure — the reference behaviour the worker must follow inside a failed
group's window. -/
def singlesRun (oracle : ApplyArg → Bool) : List MOp → List (ApplyArg × Bool) × Bool
  | [] => ([], true)
  | op :: rest =>
      if oracle (.single op) then
        let r := singlesRun oracle rest
        ((.single op, true) :: r.1, r.2)
      else
        ([(.single op, false)], false)

/-- Lexicographic comparison of char lists, modelling `std::string operator<`. -/
def charListLt : List Char → List Char → Bool
  | [], [] => false
  | [], _ :: _ => true
  | _ :: _, [] => false
  | a :: as, b :: bs => if a < b then true else if b < a then false else charListLt as bs

/-- The namespace comparator `l->ns < r->ns` of line 1059. -/
def strLt (a b : String) : Bool := charListLt a.data b.data

/-- Stable insertion of an op into an already-processed list under the
comparator `l->ns < r->ns`: the new op goes after every op whose namespace
is not greater than its own, so ops with equal namespaces keep their
original relative order. -/
def insertByNs (a : MOp) : List MOp → List MOp
  | [] => [a]
  | b :: rest => if strLt a.ns b.ns then a :: b :: rest else b :: insertByNs a rest

/-- The `std::stable_sort` of line 1057 with comparator `l->ns < r->ns`.
A stable sort's output is uniquely determined by sortedness plus stability,
so this left-to-right stable insertion sort is extensionally the same
function. -/
def stableSortByNs (ops : List MOp) : List MOp :=
  ops.foldl (fun acc a => insertByNs a acc) []

/-- multiSyncApply_noAbort (lines 1047-1146): stable-sort the slot by
namespace when it has more than one op, then run the grouping loop from the
start with the cursor at the first op. -/
def multiSyncApply_noAbort (oracle : ApplyArg → Bool) (maxBytes : Nat)
    (ops : List MOp) : List (ApplyArg × Bool) × Bool :=
  let sorted := if 1 < ops.length then stableSortByNs ops else ops
  applyLoop oracle maxBytes sorted 0 0

/-! ## multiApply (`repl::multiApply`, lines 1203-1263) -/

/-- An op as seen by `multiApply`: the timestamp of its `ts` field and its
op-time `(timestamp, term)`. -/
structure AOp where
  ts : Nat
  opTime : Nat × Int
  deriving Repr, DecidableEq

/-- The effects `multiApply` performs, in program order.  A cleared
`oplogDeleteFromPoint` is the null `Timestamp()`, modelled as 0. -/
inductive MEvent where
  | prefetchedOps
  | acquiredPBWM
  | setOplogDeleteFromPoint (ts : Nat)
  | scheduledWritesToOplog
  | filledWriterVectors
  | joinedPool
  | setMinValidToAtLeast (t : Nat × Int)
  | scheduledApplyOps
  deriving Repr, DecidableEq

/-- The structured errors `multiApply` can return. -/
inductive MError where
  | invalidOperationContext
  | invalidWorkerPool
  | noOperationsProvided
  | invalidApplyOperationFn
  | cannotApplyWhilePrimary
  deriving Repr, DecidableEq

/-- External environment of `multiApply`. -/
structure MEnv where
  txnValid : Bool
  poolValid : Bool
  applyFnValid : Bool
  isMmapV1 : Bool
  isPrimary : Bool
  waitingForDrain : Bool
  catchingUp : Bool
  deriving Repr, DecidableEq

/-- repl::multiApply (lines 1203-1263): precondition checks, optional
prefetch, parallel-batch-writer mode, the primary check, then the two-phase
schedule; on success it returns the last op's op-time together with the
trace of effects in the order they were performed. -/
def multiApply (env : MEnv) (ops : List AOp) : Except MError ((Nat × Int) × List MEvent) :=
  if !env.txnValid then .error .invalidOperationContext
  else if !env.poolValid then .error .invalidWorkerPool
  else if ops.isEmpty then .error .noOperationsProvided
  else if !env.applyFnValid then .error .invalidApplyOperationFn
  else
    let pre : List MEvent := if env.isMmapV1 then [.prefetchedOps] else []
    if env.isPrimary && !env.waitingForDrain && !env.catchingUp then
      .error .cannotApplyWhilePrimary
    else
      let firstTs := (ops.head?.map (fun o => o.ts)).getD 0
      let lastOpTime := (ops.getLast?.map (fun o => o.opTime)).getD (0, 0)
      .ok (lastOpTime,
        pre ++ [.acquiredPBWM,
                .setOplogDeleteFromPoint firstTs,
                .scheduledWritesToOplog,
                .filledWriterVectors,
                .joinedPool,
                .setOplogDeleteFromPoint 0,
                .setMinValidToAtLeast lastOpTime,
                .scheduledApplyOps,
                .joinedPool])

/-! ## getMissingDoc (`SyncTail::getMissingDoc`, lines 923-990) -/

/-- The fields of the oplog entry that `getMissingDoc` inspects: whether the
`op` field equals "u", and whether `o` / `o2` carry an `_id` element. -/
structure MissingDocOp where
  isUpdate : Bool
  idInO : Bool
  idInO2 : Bool
  deriving Repr, DecidableEq

/-- Whether the `_id` element `getMissingDoc` extracts is present. -/
def MissingDocOp.idPresent (op : MissingDocOp) : Bool :=
  if op.isUpdate then op.idInO2 else op.idInO

/-- Behaviour of `OplogReader::connect` on one attempt. -/
inductive ConnectOutcome where
  | succeeded
  | failed
  | threwSocket
  deriving Repr, DecidableEq

/-- Behaviour of `OplogReader::findOne` on one attempt; `returns none`
models an empty result object. -/
inductive FindOneOutcome where
  | returns (doc : Option Nat)
  | threwSocket
  | threwDB
  deriving Repr, DecidableEq

/-- One connect/findOne attempt against the sync source. -/
structure FetchAttempt where
  connect : ConnectOutcome
  findOne : FindOneOutcome
  deriving Repr, DecidableEq

/-- How `getMissingDoc` ends: a returned document (`none` models the empty
BSONObj), the fatal missing-`_id` assertion (`fassertFailedNoTrace(28742)`),
a rethrown non-socket DBException, or the retry-exhausted error
(`msgasserted(15916)`). -/
inductive FetchResult where
  | doc (d : Option Nat)
  | fatalMissingIdField
  | dbExceptionPropagated
  | retriesExhausted
  deriving Repr, DecidableEq

/-- The two terminal checks inside one iteration of the retry loop, after a
successful connect: the `_id` extraction (fatal when absent) and the
`findOne` call.  `none` means the iteration falls through to the next retry
(connect failure or a socket exception). -/
def attemptTerminal (op : MissingDocOp) (a : FetchAttempt) : Option FetchResult :=
  match a.connect with
  | .failed => none
  | .threwSocket => none
  | .succeeded =>
      if !op.idPresent then some .fatalMissingIdField
      else
        match a.findOne with
        | .returns d => some (.doc d)
        | .threwSocket => none
        | .threwDB => some .dbExceptionPropagated

/-- The retry loop of `getMissingDoc` (lines 942-990), iterating over the
remaining retry numbers (1, 2, 3).  Returns the result, the list of backoff
sleeps performed (each `retryCount * retryCount` seconds), and the number of
attempts entered. -/
def fetchLoop (op : MissingDocOp) (attempts : Nat → FetchAttempt) :
    List Nat → FetchResult × List Nat × Nat
  | [] => (.retriesExhausted, [], 0)
  | rc :: rest =>
      let sleeps0 : List Nat := if rc = 1 then [] else [rc * rc]
      match attemptTerminal op (attempts rc) with
      | some res => (res, sleeps0, 1)
      | none =>
          let r := fetchLoop op attempts rest
          (r.1, sleeps0 ++ r.2.1, r.2.2 + 1)

/-- SyncTail::getMissingDoc (lines 923-990): capped collections short-circuit
with an empty document and no network activity; otherwise up to three
connect/findOne attempts run with quadratic backoff. -/
def getMissingDoc (collExists isCapped : Bool) (op : MissingDocOp)
    (attempts : Nat → FetchAttempt) : FetchResult × List Nat × Nat :=
  if collExists && isCapped then (.doc none, [], 0)
  else fetchLoop op attempts [1, 2, 3]

/-- Invariant maintained by the batcher loop: the batch is empty, a
singleton, or within the byte limit. -/
def byteInvariant (limits : BatchLimits) (b : OpQueue) : Prop :=
  b.entries = [] ∨ (∃ e, b.entries = [e]) ∨ b.getBytes ≤ limits.bytes

/-- The stand-alone kinds named by the claim: a command op, an index-build
insert into `system.indexes`, or the drained-sentinel with empty raw. -/
def claimStandAloneKind (e : Entry) : Prop :=
  strHeadIs e.opType 'c' = true
  ∨ (e.opType = "i" ∧ e.ns ≠ "" ∧ nsToCollectionSubstring e.ns = "system.indexes")
  ∨ e.rawEmpty = true

/-- No entry of the batch is one that must be processed alone. -/
def standAloneFree (b : OpQueue) : Prop :=
  ∀ x ∈ b.entries, isStandAloneEntry x = false

/-- Well-formedness of an attempted grouped insert, as the claim states it:
at least two and at most 64 ops, all inserts on the first op's namespace,
first op not marked for a capped collection, and the accumulated payload of
the extension ops within `insertVectorMaxBytes`. -/
def groupWF (maxBytes : Nat) (g : List MOp) : Prop :=
  ∃ e t, g = e :: t
    ∧ 2 ≤ g.length ∧ g.length ≤ 64
    ∧ strHeadIs e.opType 'i' = true
    ∧ e.isForCappedCollection = false
    ∧ (∀ x ∈ t, strHeadIs x.opType 'i' = true ∧ x.ns = e.ns)
    ∧ (t.map (fun x => x.oSize)).sum ≤ maxBytes

/-! ## Theorems -/

/-! ### Batch byte accounting (C4) -/

theorem OpQueue.getBytes_append (b : OpQueue) (e : Entry) :
    OpQueue.getBytes { b with entries := b.entries ++ [e] } = b.getBytes + e.size := by
  simp [OpQueue.getBytes]

theorem tryPop_preserves_byteInvariant (inShutdown : Bool) (queue : List Entry)
    (batch : OpQueue) (limits : BatchLimits) (endB : Bool)
    (hinv : byteInvariant limits batch)
    (hout : (tryPopAndWaitForMore inShutdown queue batch limits).outcome = .ret endB) :
    byteInvariant limits (tryPopAndWaitForMore inShutdown queue batch limits).batch := by
  cases queue with
  | nil =>
      simp only [tryPopAndWaitForMore]
      split_ifs <;> simpa [byteInvariant, OpQueue.getBytes] using hinv
  | cons e rest =>
      simp only [tryPopAndWaitForMore] at hout ⊢
      split_ifs at hout ⊢ with h1 h2 h3 h4 h5
      · exact hinv
      · rw [List.dropLast_concat]
        exact hinv
      · have h5' : batch.entries.length + 1 = 1 := by
          simpa [OpQueue.getCount] using h5
        have hnil : batch.entries = [] := List.length_eq_zero.mp (by omega)
        exact Or.inr (Or.inl ⟨e, by simp [hnil]⟩)
      · rw [List.dropLast_concat]
        exact hinv
      · by_cases hemp : batch.entries = []
        · exact Or.inr (Or.inl ⟨e, by simp [hemp]⟩)
        · have hbyte : ¬ limits.bytes < batch.getBytes + e.size := fun hlt =>
            h1 (by simp [List.isEmpty_iff, hemp, hlt])
          refine Or.inr (Or.inr ?_)
          have hb : OpQueue.getBytes ⟨batch.entries ++ [e], batch.mustShutdown⟩ =
              batch.getBytes + e.size := by
            simp [OpQueue.getBytes]
          show OpQueue.getBytes ⟨batch.entries ++ [e], batch.mustShutdown⟩ ≤ limits.bytes
          omega

theorem buildBatchGo_byteInvariant (inShutdown : Bool) (limits : BatchLimits) :
    ∀ (fuel : Nat) (queue : List Entry) (batch : OpQueue) (res : OpQueue × List Entry),
      byteInvariant limits batch →
      buildBatchGo inShutdown limits fuel queue batch = some res →
      byteInvariant limits res.1 := by
  intro fuel
  induction fuel with
  | zero => intro queue batch res _ h; simp [buildBatchGo] at h
  | succ n ih =>
      intro queue batch res hinv h
      rw [buildBatchGo] at h
      rcases hout : (tryPopAndWaitForMore inShutdown queue batch limits).outcome with v | endB
      · rw [hout] at h; simp at h
      · rw [hout] at h
        cases endB with
        | true =>
            simp only at h
            cases h
            exact tryPop_preserves_byteInvariant _ _ _ _ _ hinv hout
        | false =>
            simp only at h
            exact ih _ _ _ (tryPop_preserves_byteInvariant _ _ _ _ _ hinv hout) h

/-- C4: when the batch is non-empty and the peeked entry would push the byte
count over the limit, `tryPopAndWaitForMore` ends the batch without consuming
the entry or touching the batch; consequently every batch assembled by the
batcher loop satisfies `byteCount ≤ max(bytesLimit, firstOpSize)`, the
single-op overrun being the only way past the limit. -/
theorem tryPopAndWaitForMore_byte_limit (inShutdown : Bool) (limits : BatchLimits) :
    (∀ (e : Entry) (rest : List Entry) (batch : OpQueue),
        batch.entries ≠ [] →
        limits.bytes < batch.getBytes + e.size →
        tryPopAndWaitForMore inShutdown (e :: rest) batch limits =
          ⟨batch, e :: rest, .ret true, false, false, false⟩)
    ∧ (∀ (queue : List Entry) (res : OpQueue × List Entry),
        buildBatch inShutdown limits queue = some res →
        res.1.getBytes ≤ max limits.bytes ((res.1.entries.head?.map (fun x => x.size)).getD 0)) := by
  constructor
  · intro e rest batch hne hbytes
    have hcond : (!batch.entries.isEmpty && decide (limits.bytes < batch.getBytes + e.size)) =
        true := by
      simp [List.isEmpty_iff, hne, hbytes]
    simp [tryPopAndWaitForMore, hcond]
  · intro queue res h
    have hinv : byteInvariant limits res.1 := by
      refine buildBatchGo_byteInvariant inShutdown limits _ queue ⟨[], false⟩ res ?_ h
      exact Or.inl rfl
    rcases hinv with h0 | ⟨e, h1⟩ | h2
    · simp [h0, OpQueue.getBytes]
    · simp [h1, OpQueue.getBytes]
    · exact le_trans h2 (le_max_left _ _)

/-- Witness for C4 at concrete inputs: a 60-byte batch rejects a second
60-byte entry under a 100-byte limit, and a single 150-byte op is accepted
as a batch exceeding the limit (byteCount 150 ≤ max(100, 150)). -/
theorem tryPopAndWaitForMore_byte_limit_witness :
    tryPopAndWaitForMore false [⟨false, "a.x", "i", some 2, 1, 60⟩]
        ⟨[⟨false, "a.y", "i", some 2, 0, 60⟩], false⟩ ⟨100, 50, none⟩ =
      ⟨⟨[⟨false, "a.y", "i", some 2, 0, 60⟩], false⟩, [⟨false, "a.x", "i", some 2, 1, 60⟩],
        .ret true, false, false, false⟩
    ∧ (OpQueue.getBytes ⟨[⟨false, "a.z", "i", some 2, 0, 150⟩], false⟩ ≤
        max 100 ((([⟨false, "a.z", "i", some 2, 0, 150⟩] : List Entry).head?.map
          (fun x => x.size)).getD 0)) :=
  ⟨(tryPopAndWaitForMore_byte_limit false ⟨100, 50, none⟩).1
      ⟨false, "a.x", "i", some 2, 1, 60⟩ [] ⟨[⟨false, "a.y", "i", some 2, 0, 60⟩], false⟩
      (by decide) (by decide),
   (tryPopAndWaitForMore_byte_limit false ⟨100, 50, none⟩).2
      [⟨false, "a.z", "i", some 2, 0, 150⟩] (⟨[⟨false, "a.z", "i", some 2, 0, 150⟩], false⟩, [])
      (by decide)⟩

/-! ### Slave-delay filter (C6) -/

/-- C6 counterexample: the claim quantifies over every call with slave-delay
active and a too-new peeked entry, but an entry that additionally fails
version validation (here `v: 99`) hits the fatal assertion
`fassertFailedNoTrace(18820)` before the slave-delay branch, so the routine
does not drop the entry and end the batch as the claim states. -/
theorem tryPopAndWaitForMore_slaveDelay_counterexample :
    slaveDelayed ⟨1000, 50, some 90⟩ ⟨false, "a.x", "i", some 99, 95, 50⟩ = true
    ∧ (tryPopAndWaitForMore false [⟨false, "a.x", "i", some 99, 95, 50⟩] ⟨[], false⟩
        ⟨1000, 50, some 90⟩).outcome = .fatalVersion 99
    ∧ ¬ (tryPopAndWaitForMore false [⟨false, "a.x", "i", some 99, 95, 50⟩] ⟨[], false⟩
        ⟨1000, 50, some 90⟩).outcome = .ret true := by
  decide

/-- C6 (amended): for every call with slave-delay active whose peeked entry
is newer than `now - slaveDelay` and passes version validation, the batch is
left without the entry (popped after the parse, or — when a non-empty batch
would exceed the byte limit — never added, which is observably the same),
the entry is not consumed from the upstream queue, the routine sleeps one
second exactly when the batch is left empty, and the batch ends. -/
theorem tryPopAndWaitForMore_slaveDelay (inShutdown : Bool) (e : Entry) (rest : List Entry)
    (batch : OpQueue) (limits : BatchLimits) (cutoff : Nat)
    (hsd : limits.slaveDelayLatestTimestamp = some cutoff)
    (hts : cutoff < e.ts)
    (hv : entryVersionOk e = true) :
    (tryPopAndWaitForMore inShutdown (e :: rest) batch limits).batch = batch
    ∧ (tryPopAndWaitForMore inShutdown (e :: rest) batch limits).queue = e :: rest
    ∧ (tryPopAndWaitForMore inShutdown (e :: rest) batch limits).consumed = false
    ∧ (tryPopAndWaitForMore inShutdown (e :: rest) batch limits).outcome = .ret true
    ∧ (tryPopAndWaitForMore inShutdown (e :: rest) batch limits).sleptOneSec =
        batch.entries.isEmpty := by
  have hsd' : slaveDelayed limits e = true := by simp [slaveDelayed, hsd, hts]
  simp only [tryPopAndWaitForMore, hv, hsd', Bool.not_true, Bool.false_eq_true, if_false,
    if_true, List.dropLast_concat]
  split_ifs with h1
  · refine ⟨rfl, rfl, rfl, rfl, ?_⟩
    have hne : batch.entries.isEmpty = false := by
      rcases Bool.and_eq_true_iff.mp h1 with ⟨ha, _⟩
      simpa using ha
    simp [hne]
  · exact ⟨rfl, rfl, rfl, rfl, rfl⟩

/-- Witness for C6 at the spec's literal scenario: slave delay cutoff 90
(`now = 100`, `slaveDelay = 10s`), one entry with `ts = 95` and a valid
version, empty batch: the batch stays empty, the entry is unconsumed, the
routine sleeps one second, and the batch ends. -/
theorem tryPopAndWaitForMore_slaveDelay_witness :
    (tryPopAndWaitForMore false [⟨false, "a.x", "i", some 2, 95, 50⟩] ⟨[], false⟩
        ⟨1000, 50, some 90⟩).batch = ⟨[], false⟩
    ∧ (tryPopAndWaitForMore false [⟨false, "a.x", "i", some 2, 95, 50⟩] ⟨[], false⟩
        ⟨1000, 50, some 90⟩).queue = [⟨false, "a.x", "i", some 2, 95, 50⟩]
    ∧ (tryPopAndWaitForMore false [⟨false, "a.x", "i", some 2, 95, 50⟩] ⟨[], false⟩
        ⟨1000, 50, some 90⟩).consumed = false
    ∧ (tryPopAndWaitForMore false [⟨false, "a.x", "i", some 2, 95, 50⟩] ⟨[], false⟩
        ⟨1000, 50, some 90⟩).outcome = .ret true
    ∧ (tryPopAndWaitForMore false [⟨false, "a.x", "i", some 2, 95, 50⟩] ⟨[], false⟩
        ⟨1000, 50, some 90⟩).sleptOneSec = true :=
  tryPopAndWaitForMore_slaveDelay false ⟨false, "a.x", "i", some 2, 95, 50⟩ [] ⟨[], false⟩
    ⟨1000, 50, some 90⟩ 90 rfl (by decide) (by decide)

/-! ### Must-stand-alone entries (C3) -/

theorem claimStandAloneKind_isStandAlone (e : Entry) (h : claimStandAloneKind e) :
    isStandAloneEntry e = true := by
  rcases h with h | ⟨_, hns, hcoll⟩ | h
  · simp [isStandAloneEntry, h]
  · simp [isStandAloneEntry, hns, hcoll]
  · simp [isStandAloneEntry, h]

theorem tryPop_preserves_standAloneFree (inShutdown : Bool) (queue : List Entry)
    (batch : OpQueue) (limits : BatchLimits) (endB : Bool)
    (hfree : standAloneFree batch)
    (hout : (tryPopAndWaitForMore inShutdown queue batch limits).outcome = .ret endB) :
    standAloneFree (tryPopAndWaitForMore inShutdown queue batch limits).batch
    ∨ (endB = true ∧ (tryPopAndWaitForMore inShutdown queue batch limits).batch.getCount = 1) := by
  cases queue with
  | nil =>
      refine Or.inl ?_
      simp only [tryPopAndWaitForMore]
      split_ifs <;> simpa [standAloneFree] using hfree
  | cons e rest =>
      simp only [tryPopAndWaitForMore] at hout ⊢
      split_ifs at hout ⊢ with h1 h2 h3 h4 h5
      · exact Or.inl hfree
      · rw [List.dropLast_concat]
        exact Or.inl hfree
      · refine Or.inr ⟨?_, ?_⟩
        · simpa using hout.symm
        · simpa [OpQueue.getCount] using h5
      · rw [List.dropLast_concat]
        exact Or.inl hfree
      · refine Or.inl ?_
        intro x hx
        rcases List.mem_append.mp hx with hx | hx
        · exact hfree x hx
        · rcases List.mem_singleton.mp hx with rfl
          simpa using h4

theorem buildBatchGo_standAloneFree (inShutdown : Bool) (limits : BatchLimits) :
    ∀ (fuel : Nat) (queue : List Entry) (batch : OpQueue) (res : OpQueue × List Entry),
      standAloneFree batch →
      buildBatchGo inShutdown limits fuel queue batch = some res →
      standAloneFree res.1 ∨ res.1.getCount = 1 := by
  intro fuel
  induction fuel with
  | zero => intro queue batch res _ h; simp [buildBatchGo] at h
  | succ n ih =>
      intro queue batch res hfree h
      rw [buildBatchGo] at h
      rcases hout : (tryPopAndWaitForMore inShutdown queue batch limits).outcome with v | endB
      · rw [hout] at h; simp at h
      · rw [hout] at h
        cases endB with
        | true =>
            simp only at h
            cases h
            rcases tryPop_preserves_standAloneFree _ _ _ _ _ hfree hout with hl | ⟨_, hc⟩
            · exact Or.inl hl
            · exact Or.inr hc
        | false =>
            simp only at h
            rcases tryPop_preserves_standAloneFree _ _ _ _ _ hfree hout with hl | ⟨hc, _⟩
            · exact ih _ _ _ hl h
            · simp at hc

/-- C3 counterexample: the claim as stated is false.  With slave-delay
active (cutoff 50) and a command entry with `ts = 100` and a valid version
peeked into an empty batch, the batch momentarily contains exactly this one
entry, so the claim requires it to be consumed — but the slave-delay branch
runs first: the entry is popped without being consumed. -/
theorem tryPopAndWaitForMore_standalone_counterexample :
    strHeadIs (Entry.mk false "a.$cmd" "c" (some 2) 100 60).opType 'c' = true
    ∧ entryVersionOk ⟨false, "a.$cmd", "c", some 2, 100, 60⟩ = true
    ∧ (tryPopAndWaitForMore false [⟨false, "a.$cmd", "c", some 2, 100, 60⟩] ⟨[], false⟩
        ⟨1000, 50, some 50⟩).consumed = false
    ∧ (tryPopAndWaitForMore false [⟨false, "a.$cmd", "c", some 2, 100, 60⟩] ⟨[], false⟩
        ⟨1000, 50, some 50⟩).batch.entries = []
    ∧ (tryPopAndWaitForMore false [⟨false, "a.$cmd", "c", some 2, 100, 60⟩] ⟨[], false⟩
        ⟨1000, 50, some 50⟩).outcome = .ret true := by
  decide

/-- C3 (amended): for every call whose peeked entry is a command, an
index-build insert into `system.indexes`, or the drained-sentinel, provided
the entry passes version validation and is not dropped by the slave-delay
filter: when the batch was empty the entry is consumed as a single-op batch
and the batch ends; otherwise the entry is left out of the batch without
being consumed and the batch ends.  Consequently a batch assembled by the
batcher loop contains no command or index-build op unless it has exactly
one op. -/
theorem tryPopAndWaitForMore_standalone (inShutdown : Bool) (e : Entry) (rest : List Entry)
    (batch : OpQueue) (limits : BatchLimits)
    (hkind : claimStandAloneKind e)
    (hv : entryVersionOk e = true)
    (hnd : slaveDelayed limits e = false) :
    ((tryPopAndWaitForMore inShutdown (e :: rest) batch limits).outcome = .ret true
    ∧ (batch.entries = [] →
        (tryPopAndWaitForMore inShutdown (e :: rest) batch limits).batch.entries = [e]
        ∧ (tryPopAndWaitForMore inShutdown (e :: rest) batch limits).consumed = true
        ∧ (tryPopAndWaitForMore inShutdown (e :: rest) batch limits).queue = rest)
    ∧ (batch.entries ≠ [] →
        (tryPopAndWaitForMore inShutdown (e :: rest) batch limits).batch = batch
        ∧ (tryPopAndWaitForMore inShutdown (e :: rest) batch limits).consumed = false
        ∧ (tryPopAndWaitForMore inShutdown (e :: rest) batch limits).queue = e :: rest))
    ∧ (∀ (inSh : Bool) (lims : BatchLimits) (q : List Entry) (res : OpQueue × List Entry),
        buildBatch inSh lims q = some res →
        (∀ x ∈ res.1.entries, ¬ claimStandAloneKind x) ∨ res.1.getCount = 1) := by
  constructor
  · have hsa : isStandAloneEntry e = true := claimStandAloneKind_isStandAlone e hkind
    simp only [tryPopAndWaitForMore, hv, hnd, hsa, Bool.not_true, Bool.false_eq_true, if_false,
      if_true, List.dropLast_concat]
    split_ifs with h1 h2
    · have hne : batch.entries.isEmpty = false := by
        rcases Bool.and_eq_true_iff.mp h1 with ⟨ha, _⟩
        simpa using ha
      have hne' : batch.entries ≠ [] := by simpa [List.isEmpty_iff] using hne
      exact ⟨rfl, fun h => absurd h hne', fun _ => ⟨rfl, rfl, rfl⟩⟩
    · have hemp : batch.entries = [] := by
        have : batch.entries.length + 1 = 1 := by simpa [OpQueue.getCount] using h2
        exact List.length_eq_zero.mp (by omega)
      refine ⟨rfl, fun _ => ⟨by simp [hemp], rfl, rfl⟩, fun h => absurd hemp h⟩
    · have hne : batch.entries ≠ [] := by
        intro hemp
        exact h2 (by simp [OpQueue.getCount, hemp])
      exact ⟨rfl, fun h => absurd h hne, fun _ => ⟨rfl, rfl, rfl⟩⟩
  · intro inSh lims q res h
    rcases buildBatchGo_standAloneFree inSh lims _ q ⟨[], false⟩ res (by intro x hx; simp at hx) h
      with hl | hc
    · refine Or.inl ?_
      intro x hx hk
      have hxf := hl x hx
      rw [claimStandAloneKind_isStandAlone x hk] at hxf
      simp at hxf
    · exact Or.inr hc

/-- Witness for C3 at concrete inputs: a lone command entry is consumed as a
single-op batch, and running the batcher on the spec's command-isolation
queue `[insert, command, insert]` yields a first batch `[insert]` that
contains no stand-alone op. -/
theorem tryPopAndWaitForMore_standalone_witness :
    ((tryPopAndWaitForMore false [⟨false, "a.$cmd", "c", some 2, 11, 60⟩] ⟨[], false⟩
        ⟨1000, 50, none⟩).outcome = .ret true
    ∧ ((⟨[], false⟩ : OpQueue).entries = [] →
        (tryPopAndWaitForMore false [⟨false, "a.$cmd", "c", some 2, 11, 60⟩] ⟨[], false⟩
          ⟨1000, 50, none⟩).batch.entries = [⟨false, "a.$cmd", "c", some 2, 11, 60⟩]
        ∧ (tryPopAndWaitForMore false [⟨false, "a.$cmd", "c", some 2, 11, 60⟩] ⟨[], false⟩
            ⟨1000, 50, none⟩).consumed = true
        ∧ (tryPopAndWaitForMore false [⟨false, "a.$cmd", "c", some 2, 11, 60⟩] ⟨[], false⟩
            ⟨1000, 50, none⟩).queue = [])
    ∧ ((⟨[], false⟩ : OpQueue).entries ≠ [] →
        (tryPopAndWaitForMore false [⟨false, "a.$cmd", "c", some 2, 11, 60⟩] ⟨[], false⟩
          ⟨1000, 50, none⟩).batch = ⟨[], false⟩
        ∧ (tryPopAndWaitForMore false [⟨false, "a.$cmd", "c", some 2, 11, 60⟩] ⟨[], false⟩
            ⟨1000, 50, none⟩).consumed = false
        ∧ (tryPopAndWaitForMore false [⟨false, "a.$cmd", "c", some 2, 11, 60⟩] ⟨[], false⟩
            ⟨1000, 50, none⟩).queue = [⟨false, "a.$cmd", "c", some 2, 11, 60⟩]))
    ∧ (buildBatch false ⟨1000, 50, none⟩
          [⟨false, "a.x", "i", some 2, 10, 50⟩, ⟨false, "a.$cmd", "c", some 2, 11, 60⟩,
            ⟨false, "a.x", "i", some 2, 12, 50⟩] =
          some (⟨[⟨false, "a.x", "i", some 2, 10, 50⟩], false⟩,
            [⟨false, "a.$cmd", "c", some 2, 11, 60⟩, ⟨false, "a.x", "i", some 2, 12, 50⟩]) →
        (∀ x ∈ (OpQueue.mk [⟨false, "a.x", "i", some 2, 10, 50⟩] false).entries,
            ¬ claimStandAloneKind x)
          ∨ (OpQueue.mk [⟨false, "a.x", "i", some 2, 10, 50⟩] false).getCount = 1) :=
  ⟨(tryPopAndWaitForMore_standalone false ⟨false, "a.$cmd", "c", some 2, 11, 60⟩ [] ⟨[], false⟩
      ⟨1000, 50, none⟩ (Or.inl (by decide)) (by decide) (by decide)).1,
   fun h =>
    (tryPopAndWaitForMore_standalone false ⟨false, "a.$cmd", "c", some 2, 11, 60⟩ [] ⟨[], false⟩
      ⟨1000, 50, none⟩ (Or.inl (by decide)) (by decide) (by decide)).2
      _ _ _ _ h⟩

/-! ### syncApply error handling (C7) -/

/-- C7 counterexample: the claim's second conjunct says an unrecognized
opType always yields BadValue, but the bad-namespace check runs first: an op
with empty namespace and opType "x" is skipped with OK. -/
theorem syncApply_badOpType_counterexample :
    isCrudOpTypeStr "x" = false
    ∧ strHeadIs "x" 'c' = false
    ∧ strHeadIs "x" 'n' = false
    ∧ strHeadIs "x" 'i' = false
    ∧ syncApply ⟨"", "x"⟩ (fun _ => .returns .ok) (fun _ => .returns .ok) 1 =
        some ⟨.ok, .skippedBadNs, [], true⟩
    ∧ ¬ syncApply ⟨"", "x"⟩ (fun _ => .returns .ok) (fun _ => .returns .ok) 1 =
        some ⟨.error .badValue, .badOpType, [], false⟩ := by
  decide

/-- C7 (amended): a bad-namespace op (empty or starting with a dot, which
covers the claim's "empty or just `.`") is skipped with OK, logging the
bad-op error exactly when the op is not a noop; and when the namespace is
not bad, an opType that is none of the recognized kinds (command, noop,
system.indexes insert, i/u/d) yields a BadValue error. -/
theorem syncApply_badNs_badOpType (op : SOp) (cmdOracle opOracle : Nat → AttemptOutcome)
    (fuel : Nat) :
    ((op.ns = "" ∨ strHeadIs op.ns '.' = true) →
      syncApply op cmdOracle opOracle fuel =
        some ⟨.ok, .skippedBadNs, [], !strHeadIs op.opType 'n'⟩)
    ∧ (¬(op.ns = "" ∨ strHeadIs op.ns '.' = true) →
      strHeadIs op.opType 'c' = false →
      strHeadIs op.opType 'n' = false →
      ¬(strHeadIs op.opType 'i' = true ∧ nsToCollectionSubstring op.ns = "system.indexes") →
      isCrudOpTypeStr op.opType = false →
      syncApply op cmdOracle opOracle fuel = some ⟨.error .badValue, .badOpType, [], false⟩) := by
  constructor
  · intro hbad
    have hc : (decide (op.ns = "") || strHeadIs op.ns '.') = true := by
      rcases hbad with h | h
      · simp [h]
      · simp [h]
    simp [syncApply, hc]
  · intro hbad hcmd hnoop hidx hcrud
    rw [not_or] at hbad
    have hc : (decide (op.ns = "") || strHeadIs op.ns '.') = false := by
      simp only [Bool.or_eq_false_iff]
      exact ⟨by simpa using hbad.1, by simpa using hbad.2⟩
    have hidx' : (strHeadIs op.opType 'i' &&
        (nsToCollectionSubstring op.ns == "system.indexes")) = false := by
      rcases Bool.eq_false_or_eq_true (strHeadIs op.opType 'i') with h | h
      · simp only [h, Bool.true_and, beq_eq_false_iff_ne, ne_eq]
        intro hcoll
        exact hidx ⟨h, hcoll⟩
      · simp [h]
    simp [syncApply, hc, hcmd, hnoop, hidx', hcrud]

/-- Witness for C7: the bad-namespace conjunct evaluated on a noop with
namespace "." (skipped quietly, OK) and the BadValue conjunct on an op with
a good namespace and opType "x". -/
theorem syncApply_badNs_badOpType_witness :
    syncApply ⟨".", "n"⟩ (fun _ => .returns .ok) (fun _ => .returns .ok) 1 =
      some ⟨.ok, .skippedBadNs, [], false⟩
    ∧ syncApply ⟨"a.x", "x"⟩ (fun _ => .returns .ok) (fun _ => .returns .ok) 1 =
      some ⟨.error .badValue, .badOpType, [], false⟩ :=
  ⟨(syncApply_badNs_badOpType ⟨".", "n"⟩ (fun _ => .returns .ok) (fun _ => .returns .ok) 1).1
      (Or.inr (by decide)),
   (syncApply_badNs_badOpType ⟨"a.x", "x"⟩ (fun _ => .returns .ok) (fun _ => .returns .ok) 1).2
      (by decide) (by decide) (by decide) (by decide) (by decide)⟩

/-! ### Command path counts one applied op per final iteration (C10) -/

theorem commandRetryLoop_events (oracle : Nat → AttemptOutcome) :
    ∀ (fuel attempt : Nat) (s : Status) (evs : List CmdEvent),
      commandRetryLoop oracle fuel attempt = some (s, evs) →
      ∃ pre, evs = pre ++ [.appliedCommand s, .incrementedOpsApplied]
        ∧ ∀ x ∈ pre, x = CmdEvent.threwWriteConflict := by
  intro fuel
  induction fuel with
  | zero => intro attempt s evs h; simp [commandRetryLoop] at h
  | succ n ih =>
      intro attempt s evs h
      rw [commandRetryLoop] at h
      cases ho : oracle attempt with
      | throwsWriteConflict =>
          rw [ho] at h
          rcases Option.map_eq_some'.mp h with ⟨⟨s', evs'⟩, hrec, heq⟩
          simp only at heq
          cases heq
          rcases ih _ _ _ hrec with ⟨pre, hpre, hall⟩
          refine ⟨.threwWriteConflict :: pre, ?_, ?_⟩
          · simp [hpre]
          · intro x hx
            rcases List.mem_cons.mp hx with rfl | hx
            · rfl
            · exact hall x hx
      | returns s' =>
          rw [ho] at h
          simp only [Option.some_inj, Prod.mk.injEq] at h
          rcases h with ⟨rfl, rfl⟩
          exact ⟨[], by simp, by simp⟩

/-- C10: for a command op with a good namespace, whenever syncApply returns,
its command-path trace ends with the final `applyCommandInLock` call
immediately followed by exactly one `incrementOpsAppliedStats`, every earlier
iteration only threw a write conflict (no increment), the returned status is
whatever the final call returned — error or not — and the increment count
over the whole call is exactly one. -/
theorem syncApply_command_increments_once (op : SOp)
    (cmdOracle opOracle : Nat → AttemptOutcome) (fuel : Nat) (r : SyncApplyRes)
    (hns : ¬(op.ns = "" ∨ strHeadIs op.ns '.' = true))
    (hcmd : strHeadIs op.opType 'c' = true)
    (h : syncApply op cmdOracle opOracle fuel = some r) :
    ∃ pre s, r.cmdEvents = pre ++ [.appliedCommand s, .incrementedOpsApplied]
      ∧ (∀ x ∈ pre, x = CmdEvent.threwWriteConflict)
      ∧ r.status = s
      ∧ r.cmdEvents.count .incrementedOpsApplied = 1 := by
  rw [not_or] at hns
  have hc : (decide (op.ns = "") || strHeadIs op.ns '.') = false := by
    simp only [Bool.or_eq_false_iff]
    exact ⟨by simpa using hns.1, by simpa using hns.2⟩
  rw [syncApply] at h
  simp only [hc, Bool.false_eq_true, if_false, hcmd, if_true] at h
  rcases Option.map_eq_some'.mp h with ⟨⟨s, evs⟩, hloop, heq⟩
  rcases commandRetryLoop_events cmdOracle fuel 0 s evs hloop with ⟨pre, hpre, hall⟩
  have hr : r = ⟨s, .command, evs, false⟩ := heq.symm
  refine ⟨pre, s, ?_, hall, ?_, ?_⟩
  · rw [hr, hpre]
  · rw [hr]
  · rw [hr]
    simp only [hpre]
    rw [List.count_append]
    have hzero : pre.count CmdEvent.incrementedOpsApplied = 0 := by
      rw [List.count_eq_zero]
      intro hmem
      have := hall _ hmem
      simp at this
    rw [hzero]
    rfl

/-- Witness for C10: a command on `a.$cmd` whose first `applyCommandInLock`
iteration throws a write conflict and whose second returns an error status:
the trace has exactly one increment, right after the final (failed) apply,
and the error status is returned. -/
theorem syncApply_command_increments_once_witness :
    ∃ pre s,
      (SyncApplyRes.mk (.error (.otherCode 5)) .command
        [.threwWriteConflict, .appliedCommand (.error (.otherCode 5)), .incrementedOpsApplied]
        false).cmdEvents = pre ++ [.appliedCommand s, .incrementedOpsApplied]
      ∧ (∀ x ∈ pre, x = CmdEvent.threwWriteConflict)
      ∧ (SyncApplyRes.mk (.error (.otherCode 5)) .command
        [.threwWriteConflict, .appliedCommand (.error (.otherCode 5)), .incrementedOpsApplied]
        false).status = s
      ∧ (SyncApplyRes.mk (.error (.otherCode 5)) .command
        [.threwWriteConflict, .appliedCommand (.error (.otherCode 5)), .incrementedOpsApplied]
        false).cmdEvents.count .incrementedOpsApplied = 1 :=
  syncApply_command_increments_once ⟨"a.$cmd", "c"⟩
    (fun n => if n = 0 then .throwsWriteConflict else .returns (.error (.otherCode 5)))
    (fun _ => .returns .ok) 3
    ⟨.error (.otherCode 5), .command,
      [.threwWriteConflict, .appliedCommand (.error (.otherCode 5)), .incrementedOpsApplied],
      false⟩
    (by decide) (by decide) (by decide)

/-! ### multiApply phase ordering (C5) -/

/-- C5: for every non-empty batch passing the preconditions, multiApply
performs, in order: `oplogDeleteFromPoint := firstOp.ts`, then scheduling of
the oplog writes, then the pool join (all oplog writes complete), then the
clear of `oplogDeleteFromPoint` and the raise of `minValid` to the last op's
op-time, then — only after `minValid` is set — the scheduling of the apply
workers; nothing precedes these but the optional prefetch pass and the
parallel-batch-writer acquisition, and on success the last op's op-time is
returned. -/
theorem multiApply_oplog_write_before_apply (env : MEnv) (ops : List AOp)
    (firstOp lastOp : AOp)
    (htxn : env.txnValid = true) (hpool : env.poolValid = true) (hfn : env.applyFnValid = true)
    (hhead : ops.head? = some firstOp) (hlast : ops.getLast? = some lastOp)
    (hprim : env.isPrimary = false ∨ env.waitingForDrain = true ∨ env.catchingUp = true) :
    ∃ tr pre,
      multiApply env ops = .ok (lastOp.opTime, tr)
      ∧ tr = pre ++ [.setOplogDeleteFromPoint firstOp.ts, .scheduledWritesToOplog,
          .filledWriterVectors, .joinedPool, .setOplogDeleteFromPoint 0,
          .setMinValidToAtLeast lastOp.opTime, .scheduledApplyOps, .joinedPool]
      ∧ (∀ x ∈ pre, x = MEvent.prefetchedOps ∨ x = MEvent.acquiredPBWM) := by
  have hne : ops.isEmpty = false := by
    cases ops with
    | nil => simp at hhead
    | cons a t => simp
  have hp : (env.isPrimary && !env.waitingForDrain && !env.catchingUp) = false := by
    rcases hprim with h | h | h <;> simp [h]
  refine ⟨(if env.isMmapV1 then [MEvent.prefetchedOps] else []) ++
      [.acquiredPBWM, .setOplogDeleteFromPoint firstOp.ts, .scheduledWritesToOplog,
        .filledWriterVectors, .joinedPool, .setOplogDeleteFromPoint 0,
        .setMinValidToAtLeast lastOp.opTime, .scheduledApplyOps, .joinedPool],
    (if env.isMmapV1 then [MEvent.prefetchedOps] else []) ++ [.acquiredPBWM], ?_, ?_, ?_⟩
  · simp [multiApply, htxn, hpool, hfn, hne, hp, hhead, hlast]
  · simp
  · intro x hx
    rcases List.mem_append.mp hx with hx | hx
    · split_ifs at hx with hm
      · rcases List.mem_singleton.mp hx with rfl
        exact Or.inl rfl
      · simp at hx
    · rcases List.mem_singleton.mp hx with rfl
      exact Or.inr rfl

/-- Witness for C5: a two-op batch on a doc-locking (non-MMAP) engine on a
secondary: the returned op-time is the last op's, and the trace is exactly
the write-then-apply sequence. -/
theorem multiApply_oplog_write_before_apply_witness :
    ∃ tr pre,
      multiApply ⟨true, true, true, false, false, false, false⟩ [⟨5, (5, 1)⟩, ⟨6, (6, 1)⟩] =
        .ok ((6, 1), tr)
      ∧ tr = pre ++ [.setOplogDeleteFromPoint 5, .scheduledWritesToOplog,
          .filledWriterVectors, .joinedPool, .setOplogDeleteFromPoint 0,
          .setMinValidToAtLeast (6, 1), .scheduledApplyOps, .joinedPool]
      ∧ (∀ x ∈ pre, x = MEvent.prefetchedOps ∨ x = MEvent.acquiredPBWM) :=
  multiApply_oplog_write_before_apply ⟨true, true, true, false, false, false, false⟩
    [⟨5, (5, 1)⟩, ⟨6, (6, 1)⟩] ⟨5, (5, 1)⟩ ⟨6, (6, 1)⟩ rfl rfl rfl (by decide) (by decide)
    (Or.inl rfl)

/-! ### getMissingDoc retry policy (C8) -/

/-- C8: the capped-collection short-circuit returns the empty document with
no attempts and no sleeps; otherwise at most three attempts run, each retry
is preceded by a `retryCount²`-second sleep (4 then 9), the result is the
first attempt's terminal outcome (document found, fatal missing `_id`, or a
propagated non-socket database exception) with transient attempts (failed
connect, socket exceptions) falling through to the next retry, and after
three transient attempts the retry-exhausted error is raised.  The final
conjunct pins the per-attempt semantics: socket errors retry, a successful
connect with a missing `_id` is fatal, a non-socket database exception
propagates, and a returned document ends the loop. -/
theorem attemptTerminal_cases (op : MissingDocOp) (a : FetchAttempt) :
    (a.connect = .threwSocket → attemptTerminal op a = none)
    ∧ (a.connect = .failed → attemptTerminal op a = none)
    ∧ (a.connect = .succeeded → op.idPresent = false →
        attemptTerminal op a = some .fatalMissingIdField)
    ∧ (a.connect = .succeeded → op.idPresent = true → a.findOne = .threwDB →
        attemptTerminal op a = some .dbExceptionPropagated)
    ∧ (a.connect = .succeeded → op.idPresent = true → a.findOne = .threwSocket →
        attemptTerminal op a = none)
    ∧ (∀ d, a.connect = .succeeded → op.idPresent = true → a.findOne = .returns d →
        attemptTerminal op a = some (.doc d)) := by
  refine ⟨?_, ?_, ?_, ?_, ?_, ?_⟩
  · intro h; simp [attemptTerminal, h]
  · intro h; simp [attemptTerminal, h]
  · intro h hid; simp [attemptTerminal, h, hid]
  · intro h hid hf; simp [attemptTerminal, h, hid, hf]
  · intro h hid hf; simp [attemptTerminal, h, hid, hf]
  · intro d h hid hf; simp [attemptTerminal, h, hid, hf]

theorem getMissingDoc_retry_policy (collExists isCapped : Bool) (op : MissingDocOp)
    (attempts : Nat → FetchAttempt) :
    (collExists = true → isCapped = true →
      getMissingDoc collExists isCapped op attempts = (.doc none, [], 0))
    ∧ (getMissingDoc collExists isCapped op attempts).2.2 ≤ 3
    ∧ (¬(collExists = true ∧ isCapped = true) →
        (getMissingDoc collExists isCapped op attempts).2.1 =
          [4, 9].take ((getMissingDoc collExists isCapped op attempts).2.2 - 1))
    ∧ (¬(collExists = true ∧ isCapped = true) →
        getMissingDoc collExists isCapped op attempts =
          match attemptTerminal op (attempts 1) with
          | some r => (r, [], 1)
          | none =>
              match attemptTerminal op (attempts 2) with
              | some r => (r, [4], 2)
              | none =>
                  match attemptTerminal op (attempts 3) with
                  | some r => (r, [4, 9], 3)
                  | none => (.retriesExhausted, [4, 9], 3))
    ∧ (∀ a : FetchAttempt,
        (a.connect = .threwSocket → attemptTerminal op a = none)
        ∧ (a.connect = .failed → attemptTerminal op a = none)
        ∧ (a.connect = .succeeded → op.idPresent = false →
            attemptTerminal op a = some .fatalMissingIdField)
        ∧ (a.connect = .succeeded → op.idPresent = true → a.findOne = .threwDB →
            attemptTerminal op a = some .dbExceptionPropagated)
        ∧ (a.connect = .succeeded → op.idPresent = true → a.findOne = .threwSocket →
            attemptTerminal op a = none)
        ∧ (∀ d, a.connect = .succeeded → op.idPresent = true → a.findOne = .returns d →
            attemptTerminal op a = some (.doc d))) := by
  by_cases hcap : collExists = true ∧ isCapped = true
  · have hcc : (collExists && isCapped) = true := by simp [hcap.1, hcap.2]
    exact ⟨fun _ _ => by simp [getMissingDoc, hcc], by simp [getMissingDoc, hcc],
      fun h => absurd hcap h, fun h => absurd hcap h, fun a => attemptTerminal_cases op a⟩
  · have hcc : (collExists && isCapped) = false := by
      rcases not_and_or.mp hcap with h | h
      · have h' : collExists = false := by simpa using h
        simp [h']
      · have h' : isCapped = false := by simpa using h
        simp [h']
    have hrun : getMissingDoc collExists isCapped op attempts =
        fetchLoop op attempts [1, 2, 3] := by
      simp [getMissingDoc, hcc]
    have hchar : fetchLoop op attempts [1, 2, 3] =
        match attemptTerminal op (attempts 1) with
        | some r => (r, [], 1)
        | none =>
            match attemptTerminal op (attempts 2) with
            | some r => (r, [4], 2)
            | none =>
                match attemptTerminal op (attempts 3) with
                | some r => (r, [4, 9], 3)
                | none => (.retriesExhausted, [4, 9], 3) := by
      rcases h1 : attemptTerminal op (attempts 1) with _ | r1
      · rcases h2 : attemptTerminal op (attempts 2) with _ | r2
        · rcases h3 : attemptTerminal op (attempts 3) with _ | r3
          · simp [fetchLoop, h1, h2, h3]
          · simp [fetchLoop, h1, h2, h3]
        · simp [fetchLoop, h1, h2]
      · simp [fetchLoop, h1]
    refine ⟨fun h1 h2 => absurd ⟨h1, h2⟩ hcap, ?_, fun _ => ?_, fun _ => hrun.trans hchar, ?_⟩
    · rw [hrun, hchar]
      rcases attemptTerminal op (attempts 1) with _ | r1
      · rcases attemptTerminal op (attempts 2) with _ | r2
        · rcases attemptTerminal op (attempts 3) with _ | r3 <;> simp
        · simp
      · simp
    · rw [hrun, hchar]
      rcases attemptTerminal op (attempts 1) with _ | r1
      · rcases attemptTerminal op (attempts 2) with _ | r2
        · rcases attemptTerminal op (attempts 3) with _ | r3 <;> simp
        · simp
      · simp
    · exact fun a => attemptTerminal_cases op a

/-- Witness for C8: a capped target short-circuits with the empty document
and zero attempts; on a non-capped target, a failed first connect followed
by a successful second attempt sleeps 4 seconds and returns the fetched
document after two attempts. -/
theorem getMissingDoc_retry_policy_witness :
    getMissingDoc true true ⟨false, true, true⟩
        (fun rc => if rc = 2 then ⟨.succeeded, .returns (some 3)⟩ else ⟨.failed, .threwSocket⟩) =
      (.doc none, [], 0)
    ∧ getMissingDoc false false ⟨false, true, true⟩
        (fun rc => if rc = 2 then ⟨.succeeded, .returns (some 3)⟩ else ⟨.failed, .threwSocket⟩) =
      (.doc (some 3), [4], 2) :=
  ⟨(getMissingDoc_retry_policy true true ⟨false, true, true⟩
      (fun rc => if rc = 2 then ⟨.succeeded, .returns (some 3)⟩ else ⟨.failed, .threwSocket⟩)).1
      rfl rfl,
   ((getMissingDoc_retry_policy false false ⟨false, true, true⟩
      (fun rc => if rc = 2 then ⟨.succeeded, .returns (some 3)⟩ else ⟨.failed, .threwSocket⟩)).2.2.2.1
      (by simp)).trans (by decide)⟩

/-! ### Partitioner: same document, same writer slot (C1) -/

theorem fwvGo_cons_propsUsed (ctx : FwvCtx) (st : CacheState) (op : POp) (rest : List POp) :
    (fwvGo ctx st (op :: rest)).propsUsed =
      (fwvStep ctx st op).1 :: (fwvGo ctx (fwvStep ctx st op).2 rest).propsUsed := rfl

theorem fwvGo_cons_slots (ctx : FwvCtx) (st : CacheState) (op : POp) (rest : List POp) :
    (fwvGo ctx st (op :: rest)).slots =
      (opSlotHash ctx op (fwvStep ctx st op).1 % ctx.numWriters) ::
        (fwvGo ctx (fwvStep ctx st op).2 rest).slots := rfl

theorem fwvGo_cons_outOps (ctx : FwvCtx) (st : CacheState) (op : POp) (rest : List POp) :
    (fwvGo ctx st (op :: rest)).outOps =
      markCapped op (fwvStep ctx st op).1 :: (fwvGo ctx (fwvStep ctx st op).2 rest).outOps := rfl

theorem getCollectionProperties_preserves_lookup (impl : Nat → String → CollectionProperties)
    (st : CacheState) (n ns : String) (p : CollectionProperties)
    (h : st.cache.lookup ns = some p) :
    (getCollectionProperties impl st n).2.cache.lookup ns = some p := by
  unfold getCollectionProperties
  cases hn : st.cache.lookup n with
  | some q => simpa using h
  | none =>
      have hnn : (ns == n) = false := by
        rcases Bool.eq_false_or_eq_true (ns == n) with hb | hb
        · have hbe : ns = n := by simpa using hb
          rw [hbe] at h
          rw [h] at hn
          cases hn
        · exact hb
      simpa [List.lookup, hnn] using h

theorem getCollectionProperties_result_lookup (impl : Nat → String → CollectionProperties)
    (st : CacheState) (n : String) :
    (getCollectionProperties impl st n).2.cache.lookup n =
      some (getCollectionProperties impl st n).1 := by
  unfold getCollectionProperties
  cases hn : st.cache.lookup n with
  | some q => simpa using hn
  | none => simp [List.lookup]

theorem fwvStep_preserves_lookup (ctx : FwvCtx) (st : CacheState) (op : POp) (ns : String)
    (p : CollectionProperties) (h : st.cache.lookup ns = some p) :
    (fwvStep ctx st op).2.cache.lookup ns = some p := by
  unfold fwvStep
  split_ifs with hc
  · exact getCollectionProperties_preserves_lookup _ _ _ _ _ h
  · exact h

theorem opSlotHash_congr (ctx : FwvCtx) (a b : POp) (pr : Option CollectionProperties)
    (hns : a.ns = b.ns) (hid : a.idElem = b.idElem) :
    opSlotHash ctx a pr = opSlotHash ctx b pr := by
  cases pr <;> simp [opSlotHash, hns, hid]

/-- Once the per-batch cache associates a namespace with properties `p`,
every later CRUD op on that namespace is partitioned with exactly `p`. -/
theorem fwvGo_cached_props (ctx : FwvCtx) :
    ∀ (ops : List POp) (st : CacheState) (nsv : String) (p : CollectionProperties),
      st.cache.lookup nsv = some p →
      ∀ (i : Nat) (c : POp), ops.get? i = some c → c.isCrudOpType = true → c.ns = nsv →
        (fwvGo ctx st ops).propsUsed.get? i = some (some p)
        ∧ (fwvGo ctx st ops).slots.get? i =
            some (opSlotHash ctx c (some p) % ctx.numWriters) := by
  intro ops
  induction ops with
  | nil => intro st nsv p hst i c hi; simp at hi
  | cons op rest ih =>
      intro st nsv p hst i c hi hcrud hns
      cases i with
      | zero =>
          obtain rfl : op = c := by simpa using hi
          have hst' : st.cache.lookup op.ns = some p := by rw [hns]; exact hst
          have hstep : fwvStep ctx st op = (some p, st) := by
            unfold fwvStep
            rw [if_pos hcrud]
            unfold getCollectionProperties
            rw [hst']
          rw [fwvGo_cons_propsUsed, fwvGo_cons_slots, hstep]
          exact ⟨rfl, rfl⟩
      | succ k =>
          have hst2 : (fwvStep ctx st op).2.cache.lookup nsv = some p :=
            fwvStep_preserves_lookup ctx st op nsv p hst
          have := ih (fwvStep ctx st op).2 nsv p hst2 k c (by simpa using hi) hcrud hns
          rw [fwvGo_cons_propsUsed, fwvGo_cons_slots]
          simpa using this

theorem fwvGo_same_slot_aux (ctx : FwvCtx) :
    ∀ (ops : List POp) (st : CacheState) (i j : Nat) (a b : POp),
      ops.get? i = some a → ops.get? j = some b →
      a.isCrudOpType = true → b.isCrudOpType = true →
      a.ns = b.ns → a.idElem = b.idElem → i ≤ j →
      (fwvGo ctx st ops).slots.get? i = (fwvGo ctx st ops).slots.get? j := by
  intro ops
  induction ops with
  | nil => intro st i j a b hi; simp at hi
  | cons op rest ih =>
      intro st i j a b hi hj ha hb hns hid hij
      cases i with
      | zero =>
          obtain rfl : op = a := by simpa using hi
          cases j with
          | zero => rfl
          | succ m =>
              have hj' : rest.get? m = some b := by simpa using hj
              obtain ⟨p, hp, hstep⟩ : ∃ p,
                  (getCollectionProperties ctx.collPropsImpl st op.ns).1 = p
                  ∧ fwvStep ctx st op =
                      (some p, (getCollectionProperties ctx.collPropsImpl st op.ns).2) := by
                refine ⟨(getCollectionProperties ctx.collPropsImpl st op.ns).1, rfl, ?_⟩
                unfold fwvStep
                rw [if_pos ha]
              have hlook : (fwvStep ctx st op).2.cache.lookup op.ns = some p := by
                rw [hstep]
                simpa [hp] using getCollectionProperties_result_lookup ctx.collPropsImpl st op.ns
              have hb' := fwvGo_cached_props ctx rest (fwvStep ctx st op).2 op.ns p hlook m b
                hj' hb hns.symm
              rw [fwvGo_cons_slots]
              show some (opSlotHash ctx op (fwvStep ctx st op).1 % ctx.numWriters) =
                ((fwvGo ctx (fwvStep ctx st op).2 rest).slots).get? m
              rw [hb'.2, hstep]
              rw [opSlotHash_congr ctx op b (some p) hns hid]
      | succ k =>
          cases j with
          | zero => omega
          | succ m =>
              rw [fwvGo_cons_slots]
              show ((fwvGo ctx (fwvStep ctx st op).2 rest).slots).get? k =
                ((fwvGo ctx (fwvStep ctx st op).2 rest).slots).get? m
              exact ih (fwvStep ctx st op).2 k m a b (by simpa using hi) (by simpa using hj)
                ha hb hns hid (by omega)

/-- C1: any two CRUD ops of a batch with the same namespace and the same
`_id` element are assigned the same writer slot by `fillWriterVectors`, for
every storage-engine support matrix: the per-batch cache fixes one set of
collection properties per namespace, so the decision whether to mix the
hashed `_id` into the namespace hash is identical for both ops, and the
resulting slot `hash mod N` agrees. -/
theorem fillWriterVectors_same_doc_same_slot (ctx : FwvCtx) (ops : List POp) (i j : Nat)
    (a b : POp) (hi : ops.get? i = some a) (hj : ops.get? j = some b)
    (ha : a.isCrudOpType = true) (hb : b.isCrudOpType = true)
    (hns : a.ns = b.ns) (hid : a.idElem = b.idElem) :
    (fillWriterVectors ctx ops).slots.get? i = (fillWriterVectors ctx ops).slots.get? j := by
  rcases Nat.le_total i j with h | h
  · exact fwvGo_same_slot_aux ctx ops ⟨[], 0⟩ i j a b hi hj ha hb hns hid h
  · exact (fwvGo_same_slot_aux ctx ops ⟨[], 0⟩ j i b a hj hi hb ha hns.symm hid.symm h).symm

/-- Witness for C1: a batch with two CRUD ops on `(a.x, _id 7)` separated by
an op on another namespace, partitioned across 4 writers on a doc-locking
engine whose underlying property lookup varies between calls — the two ops
still land in the same slot. -/
theorem fillWriterVectors_same_doc_same_slot_witness :
    ([(⟨"a.x", "i", 7, false⟩ : POp), ⟨"b.y", "u", 3, false⟩, ⟨"a.x", "u", 7, false⟩].get? 0 =
      some ⟨"a.x", "i", 7, false⟩)
    ∧ ([(⟨"a.x", "i", 7, false⟩ : POp), ⟨"b.y", "u", 3, false⟩, ⟨"a.x", "u", 7, false⟩].get? 2 =
      some ⟨"a.x", "u", 7, false⟩)
    ∧ (fillWriterVectors
        ⟨true, 4, fun calls _ => ⟨decide (0 < calls), false⟩, fun s => s.length, fun n => n,
          fun d seed => d + 31 * seed⟩
        [⟨"a.x", "i", 7, false⟩, ⟨"b.y", "u", 3, false⟩, ⟨"a.x", "u", 7, false⟩]).slots.get? 0 =
      (fillWriterVectors
        ⟨true, 4, fun calls _ => ⟨decide (0 < calls), false⟩, fun s => s.length, fun n => n,
          fun d seed => d + 31 * seed⟩
        [⟨"a.x", "i", 7, false⟩, ⟨"b.y", "u", 3, false⟩, ⟨"a.x", "u", 7, false⟩]).slots.get? 2 :=
  ⟨rfl, rfl,
   fillWriterVectors_same_doc_same_slot
    ⟨true, 4, fun calls _ => ⟨decide (0 < calls), false⟩, fun s => s.length, fun n => n,
      fun d seed => d + 31 * seed⟩
    [⟨"a.x", "i", 7, false⟩, ⟨"b.y", "u", 3, false⟩, ⟨"a.x", "u", 7, false⟩] 0 2
    ⟨"a.x", "i", 7, false⟩ ⟨"a.x", "u", 7, false⟩ rfl rfl (by decide) (by decide) rfl rfl⟩

/-! ### Partitioner: frame and exactly-one-vector properties (C9) -/

theorem fwvGo_lengths (ctx : FwvCtx) :
    ∀ (ops : List POp) (st : CacheState),
      (fwvGo ctx st ops).outOps.length = ops.length
      ∧ (fwvGo ctx st ops).slots.length = ops.length
      ∧ (fwvGo ctx st ops).propsUsed.length = ops.length := by
  intro ops
  induction ops with
  | nil => intro st; exact ⟨rfl, rfl, rfl⟩
  | cons op rest ih =>
      intro st
      rw [fwvGo_cons_outOps, fwvGo_cons_slots, fwvGo_cons_propsUsed]
      refine ⟨?_, ?_, ?_⟩ <;> simp [(ih _).1, (ih _).2.1, (ih _).2.2]

theorem fwvGo_slots_lt (ctx : FwvCtx) (hnw : 0 < ctx.numWriters) :
    ∀ (ops : List POp) (st : CacheState) (s : Nat),
      s ∈ (fwvGo ctx st ops).slots → s < ctx.numWriters := by
  intro ops
  induction ops with
  | nil => intro st s hs; simp [fwvGo] at hs
  | cons op rest ih =>
      intro st s hs
      rw [fwvGo_cons_slots] at hs
      rcases List.mem_cons.mp hs with rfl | hs
      · exact Nat.mod_lt _ hnw
      · exact ih _ _ hs

theorem fwvGo_out_at (ctx : FwvCtx) :
    ∀ (ops : List POp) (st : CacheState) (i : Nat) (a : POp), ops.get? i = some a →
      ∃ pr, (fwvGo ctx st ops).propsUsed.get? i = some pr
        ∧ (fwvGo ctx st ops).outOps.get? i = some (markCapped a pr) := by
  intro ops
  induction ops with
  | nil => intro st i a hi; simp at hi
  | cons op rest ih =>
      intro st i a hi
      cases i with
      | zero =>
          obtain rfl : op = a := by simpa using hi
          exact ⟨(fwvStep ctx st op).1, rfl, rfl⟩
      | succ k =>
          have := ih (fwvStep ctx st op).2 k a (by simpa using hi)
          rw [fwvGo_cons_propsUsed, fwvGo_cons_outOps]
          simpa using this

theorem markCapped_cases (a : POp) (pr : Option CollectionProperties) :
    markCapped a pr = a
    ∨ (a.opType = "i" ∧ markCapped a pr = { a with isForCappedCollection := true }) := by
  cases pr with
  | none => exact Or.inl rfl
  | some p =>
      by_cases hi : a.opType = "i"
      · by_cases hc : p.isCapped = true
        · exact Or.inr ⟨hi, by simp [markCapped, hi, hc]⟩
        · have hc' : p.isCapped = false := by simpa using hc
          exact Or.inl (by simp [markCapped, hc'])
      · exact Or.inl (by simp [markCapped, hi])

theorem buildVecsGo_mem :
    ∀ (slots : List Nat) (i : Nat) (vecs : Nat → List Nat) (j k : Nat),
      k ∈ buildVecsGo i vecs slots j ↔
        k ∈ vecs j ∨ ∃ m, slots.get? m = some j ∧ k = i + m := by
  intro slots
  induction slots with
  | nil => intro i vecs j k; simp [buildVecsGo]
  | cons s rest ih =>
      intro i vecs j k
      rw [buildVecsGo, ih]
      constructor
      · rintro (hk | ⟨m, hm, rfl⟩)
        · rw [pushSlot, Function.update_apply] at hk
          split_ifs at hk with hj
          · rcases List.mem_append.mp hk with hk | hk
            · exact Or.inl (by rw [hj]; exact hk)
            · rcases List.mem_singleton.mp hk with rfl
              exact Or.inr ⟨0, by simp [hj], by omega⟩
          · exact Or.inl hk
        · exact Or.inr ⟨m + 1, by simpa using hm, by omega⟩
      · rintro (hk | ⟨m, hm, hkm⟩)
        · refine Or.inl ?_
          rw [pushSlot, Function.update_apply]
          split_ifs with hj
          · exact List.mem_append.mpr (Or.inl (by rw [← hj]; exact hk))
          · exact hk
        · cases m with
          | zero =>
              obtain rfl : s = j := by simpa using hm
              refine Or.inl ?_
              rw [pushSlot, Function.update_apply, if_pos rfl]
              have : k = i := by omega
              simp [this]
          | succ m' =>
              refine Or.inr ⟨m', by simpa using hm, by omega⟩

theorem buildVecsGo_sorted :
    ∀ (slots : List Nat) (i : Nat) (vecs : Nat → List Nat),
      (∀ j, (vecs j).Pairwise (· < ·) ∧ ∀ x ∈ vecs j, x < i) →
      ∀ j, (buildVecsGo i vecs slots j).Pairwise (· < ·)
        ∧ ∀ x ∈ buildVecsGo i vecs slots j, x < i + slots.length := by
  intro slots
  induction slots with
  | nil =>
      intro i vecs hv j
      exact ⟨(hv j).1, fun x hx => by
        have := (hv j).2 x hx
        simpa using Nat.lt_of_lt_of_le this (by simp)⟩
  | cons s rest ih =>
      intro i vecs hv j
      rw [buildVecsGo]
      have hv' : ∀ j', (pushSlot vecs s i j').Pairwise (· < ·)
          ∧ ∀ x ∈ pushSlot vecs s i j', x < i + 1 := by
        intro j'
        rw [pushSlot, Function.update_apply]
        split_ifs with hj
        · constructor
          · rw [List.pairwise_append]
            refine ⟨(hv s).1, List.pairwise_singleton _ _, ?_⟩
            intro x hx y hy
            rcases List.mem_singleton.mp hy with rfl
            exact (hv s).2 x hx
          · intro x hx
            rcases List.mem_append.mp hx with hx | hx
            · have := (hv s).2 x hx; omega
            · rcases List.mem_singleton.mp hx with rfl; omega
        · exact ⟨(hv j').1, fun x hx => by have := (hv j').2 x hx; omega⟩
      have hres := ih (i + 1) (pushSlot vecs s i) hv' j
      refine ⟨hres.1, fun x hx => ?_⟩
      have := hres.2 x hx
      simp only [List.length_cons]
      omega

theorem pushSlot_length (vecs : Nat → List Nat) (s i j : Nat) :
    (pushSlot vecs s i j).length = (vecs j).length + (if j = s then 1 else 0) := by
  rw [pushSlot, Function.update_apply]
  split_ifs with h
  · subst h; simp
  · simp

theorem buildVecsGo_sum (nw : Nat) :
    ∀ (slots : List Nat) (i : Nat) (vecs : Nat → List Nat),
      (∀ s ∈ slots, s < nw) →
      (∑ j in Finset.range nw, (buildVecsGo i vecs slots j).length)
        = (∑ j in Finset.range nw, (vecs j).length) + slots.length := by
  intro slots
  induction slots with
  | nil => intro i vecs _; simp [buildVecsGo]
  | cons s rest ih =>
      intro i vecs hs
      rw [buildVecsGo, ih (i + 1) _ (fun x hx => hs x (List.mem_cons_of_mem _ hx))]
      have hpush : (∑ j in Finset.range nw, (pushSlot vecs s i j).length)
          = (∑ j in Finset.range nw, (vecs j).length) + 1 := by
        simp only [pushSlot_length]
        rw [Finset.sum_add_distrib]
        congr 1
        rw [Finset.sum_ite_eq' (Finset.range nw) s (fun _ => 1)]
        simp [hs s (List.mem_cons_self _ _)]
      rw [hpush]
      simp only [List.length_cons]
      omega

theorem fillWriterVectors_mem_vecs (ctx : FwvCtx) (ops : List POp) (k j : Nat) :
    k ∈ (fillWriterVectors ctx ops).vecs j ↔
      (fillWriterVectors ctx ops).slots.get? k = some j := by
  show k ∈ buildVecsGo 0 (fun _ => []) (fwvGo ctx ⟨[], 0⟩ ops).slots j ↔ _
  rw [buildVecsGo_mem]
  constructor
  · rintro (hk | ⟨m, hm, hkm⟩)
    · simp at hk
    · have : k = m := by omega
      rw [this]
      exact hm
  · intro h
    exact Or.inr ⟨k, h, by omega⟩

/-- C9: `fillWriterVectors` places every op of the batch into exactly one
writer vector — the op-index lists of the N vectors have total length equal
to the batch size, and index `k` lies in vector `j` exactly when `j` is the
slot assigned to op `k`; each vector lists its op indices in strictly
increasing (batch) order; and the returned ops agree with the input ops on
every field except that `isForCappedCollection` may have been set to `true`
on an insert op. -/
theorem fillWriterVectors_partition (ctx : FwvCtx) (ops : List POp)
    (hnw : 0 < ctx.numWriters) :
    (fillWriterVectors ctx ops).outOps.length = ops.length
    ∧ (∑ j in Finset.range ctx.numWriters,
        ((fillWriterVectors ctx ops).vecs j).length) = ops.length
    ∧ (∀ j, ((fillWriterVectors ctx ops).vecs j).Pairwise (· < ·))
    ∧ (∀ k j, k ∈ (fillWriterVectors ctx ops).vecs j ↔
        (fillWriterVectors ctx ops).slots.get? k = some j)
    ∧ (∀ i a, ops.get? i = some a →
        (fillWriterVectors ctx ops).outOps.get? i = some a
        ∨ (a.opType = "i" ∧ (fillWriterVectors ctx ops).outOps.get? i =
            some { a with isForCappedCollection := true })) := by
  refine ⟨(fwvGo_lengths ctx ops _).1, ?_, ?_, ?_, ?_⟩
  · show (∑ j in Finset.range ctx.numWriters,
        (buildVecsGo 0 (fun _ => []) (fwvGo ctx ⟨[], 0⟩ ops).slots j).length) = ops.length
    rw [buildVecsGo_sum ctx.numWriters _ 0 _ (fun s hs => fwvGo_slots_lt ctx hnw ops _ s hs)]
    simp [(fwvGo_lengths ctx ops _).2.1]
  · intro j
    show (buildVecsGo 0 (fun _ => []) (fwvGo ctx ⟨[], 0⟩ ops).slots j).Pairwise (· < ·)
    exact (buildVecsGo_sorted _ 0 _ (fun j' => ⟨List.Pairwise.nil, by simp⟩) j).1
  · exact fun k j => fillWriterVectors_mem_vecs ctx ops k j
  · intro i a hi
    rcases fwvGo_out_at ctx ops ⟨[], 0⟩ i a hi with ⟨pr, _, hout⟩
    rcases markCapped_cases a pr with hm | ⟨hins, hm⟩
    · exact Or.inl (by rw [hm] at hout; exact hout)
    · exact Or.inr ⟨hins, by rw [hm] at hout; exact hout⟩

/-- Witness for C9: four writers, a batch with a capped-collection insert
(`a.cap`), a non-capped insert and a noop — all partition properties hold,
the capped insert coming back marked. -/
theorem fillWriterVectors_partition_witness :
    (0 < (4 : Nat))
    ∧ ((fillWriterVectors
        ⟨true, 4, fun _ ns => ⟨decide (ns = "a.cap"), false⟩, fun s => s.length, fun n => n,
          fun d seed => d + 31 * seed⟩
        [⟨"a.cap", "i", 1, false⟩, ⟨"a.x", "i", 2, false⟩, ⟨"a.x", "n", 0, false⟩]).outOps.length =
        ([(⟨"a.cap", "i", 1, false⟩ : POp), ⟨"a.x", "i", 2, false⟩, ⟨"a.x", "n", 0, false⟩]).length
    ∧ (∑ j in Finset.range (4 : Nat),
        ((fillWriterVectors
          ⟨true, 4, fun _ ns => ⟨decide (ns = "a.cap"), false⟩, fun s => s.length, fun n => n,
            fun d seed => d + 31 * seed⟩
          [⟨"a.cap", "i", 1, false⟩, ⟨"a.x", "i", 2, false⟩, ⟨"a.x", "n", 0, false⟩]).vecs
            j).length) =
        ([(⟨"a.cap", "i", 1, false⟩ : POp), ⟨"a.x", "i", 2, false⟩, ⟨"a.x", "n", 0, false⟩]).length
    ∧ (∀ j, ((fillWriterVectors
          ⟨true, 4, fun _ ns => ⟨decide (ns = "a.cap"), false⟩, fun s => s.length, fun n => n,
            fun d seed => d + 31 * seed⟩
          [⟨"a.cap", "i", 1, false⟩, ⟨"a.x", "i", 2, false⟩,
            ⟨"a.x", "n", 0, false⟩]).vecs j).Pairwise (· < ·))
    ∧ (∀ k j, k ∈ (fillWriterVectors
          ⟨true, 4, fun _ ns => ⟨decide (ns = "a.cap"), false⟩, fun s => s.length, fun n => n,
            fun d seed => d + 31 * seed⟩
          [⟨"a.cap", "i", 1, false⟩, ⟨"a.x", "i", 2, false⟩, ⟨"a.x", "n", 0, false⟩]).vecs j ↔
        (fillWriterVectors
          ⟨true, 4, fun _ ns => ⟨decide (ns = "a.cap"), false⟩, fun s => s.length, fun n => n,
            fun d seed => d + 31 * seed⟩
          [⟨"a.cap", "i", 1, false⟩, ⟨"a.x", "i", 2, false⟩,
            ⟨"a.x", "n", 0, false⟩]).slots.get? k = some j)
    ∧ (∀ i a, ([(⟨"a.cap", "i", 1, false⟩ : POp), ⟨"a.x", "i", 2, false⟩,
          ⟨"a.x", "n", 0, false⟩]).get? i = some a →
        (fillWriterVectors
          ⟨true, 4, fun _ ns => ⟨decide (ns = "a.cap"), false⟩, fun s => s.length, fun n => n,
            fun d seed => d + 31 * seed⟩
          [⟨"a.cap", "i", 1, false⟩, ⟨"a.x", "i", 2, false⟩,
            ⟨"a.x", "n", 0, false⟩]).outOps.get? i = some a
        ∨ (a.opType = "i" ∧ (fillWriterVectors
            ⟨true, 4, fun _ ns => ⟨decide (ns = "a.cap"), false⟩, fun s => s.length, fun n => n,
              fun d seed => d + 31 * seed⟩
            [⟨"a.cap", "i", 1, false⟩, ⟨"a.x", "i", 2, false⟩,
              ⟨"a.x", "n", 0, false⟩]).outOps.get? i =
              some { a with isForCappedCollection := true }))) :=
  ⟨by decide,
   fillWriterVectors_partition
    ⟨true, 4, fun _ ns => ⟨decide (ns = "a.cap"), false⟩, fun s => s.length, fun n => n,
      fun d seed => d + 31 * seed⟩
    [⟨"a.cap", "i", 1, false⟩, ⟨"a.x", "i", 2, false⟩, ⟨"a.x", "n", 0, false⟩]
    (by decide)⟩

/-! ### Apply worker grouping (C2) -/

theorem applyLoop_none_eq (oracle : ApplyArg → Bool) (mb : Nat) (ops : List MOp) (i dngb : Nat)
    (h : ops.get? i = none) : applyLoop oracle mb ops i dngb = ([], true) := by
  rw [applyLoop]
  split
  · rfl
  · rename_i entry heq
    rw [h] at heq
    cases heq

theorem applyLoop_single_eq (oracle : ApplyArg → Bool) (mb : Nat) (ops : List MOp)
    (i dngb : Nat) (entry : MOp) (hget : ops.get? i = some entry)
    (hng : (strHeadIs entry.opType 'i' && !entry.isForCappedCollection && decide (dngb < i)) = false
      ∨ groupExtentGo mb entry.ns 0 0 (ops.drop (i + 1)) = 0) :
    applyLoop oracle mb ops i dngb =
      if oracle (.single entry) then
        ((ApplyArg.single entry, true) :: (applyLoop oracle mb ops (i + 1) dngb).1,
         (applyLoop oracle mb ops (i + 1) dngb).2)
      else ([(.single entry, false)], false) := by
  rw [applyLoop]
  split
  · rename_i heq
    rw [hget] at heq
    cases heq
  · rename_i entry' heq
    rw [hget] at heq
    cases heq
    have hk : (if (strHeadIs entry.opType 'i' && !entry.isForCappedCollection && decide (dngb < i)) = true then
        (if 0 < groupExtentGo mb entry.ns 0 0 (ops.drop (i + 1)) then
          some (groupExtentGo mb entry.ns 0 0 (ops.drop (i + 1))) else none)
      else none) = (none : Option Nat) := by
      rcases hng with h | h
      · rw [h]; simp
      · rw [h]; simp
    simp only [hk]

theorem applyLoop_group_eq (oracle : ApplyArg → Bool) (mb : Nat) (ops : List MOp)
    (i dngb : Nat) (entry : MOp) (k : Nat) (hget : ops.get? i = some entry)
    (hcond : (strHeadIs entry.opType 'i' && !entry.isForCappedCollection && decide (dngb < i)) = true)
    (hk : groupExtentGo mb entry.ns 0 0 (ops.drop (i + 1)) = k) (hpos : 0 < k) :
    applyLoop oracle mb ops i dngb =
      (if oracle (.grouped (entry :: (ops.drop (i + 1)).take k)) then
         ((ApplyArg.grouped (entry :: (ops.drop (i + 1)).take k), true) ::
            (applyLoop oracle mb ops (i + k + 1) dngb).1,
          (applyLoop oracle mb ops (i + k + 1) dngb).2)
       else if oracle (.single entry) then
         ((ApplyArg.grouped (entry :: (ops.drop (i + 1)).take k), false) ::
            (ApplyArg.single entry, true) :: (applyLoop oracle mb ops (i + 1) (i + k)).1,
          (applyLoop oracle mb ops (i + 1) (i + k)).2)
       else ([(ApplyArg.grouped (entry :: (ops.drop (i + 1)).take k), false),
              (ApplyArg.single entry, false)], false)) := by
  rw [applyLoop]
  split
  · rename_i heq
    rw [hget] at heq
    cases heq
  · rename_i entry' heq
    rw [hget] at heq
    cases heq
    simp only [hk, hcond, if_true]
    rw [if_pos hpos]

theorem groupExtentGo_le (mb : Nat) (ns : String) :
    ∀ (rest : List MOp) (bs bc : Nat),
      groupExtentGo mb ns bs bc rest = 0 ∨ bc + groupExtentGo mb ns bs bc rest ≤ 63 := by
  intro rest
  induction rest with
  | nil => intro bs bc; exact Or.inl rfl
  | cons n t ih =>
      intro bs bc
      rw [groupExtentGo]
      split_ifs with h1 h2 h3 h4
      · exact Or.inl rfl
      · exact Or.inl rfl
      · exact Or.inl rfl
      · exact Or.inl rfl
      · refine Or.inr ?_
        rcases ih (bs + n.oSize) (bc + 1) with h | h
        · rw [h]; omega
        · omega

theorem groupExtentGo_take (mb : Nat) (ns : String) :
    ∀ (rest : List MOp) (bs bc : Nat),
      ∀ x ∈ rest.take (groupExtentGo mb ns bs bc rest),
        strHeadIs x.opType 'i' = true ∧ x.ns = ns := by
  intro rest
  induction rest with
  | nil => intro bs bc x hx; simp at hx
  | cons n t ih =>
      intro bs bc x hx
      rw [groupExtentGo] at hx
      split_ifs at hx with h1 h2 h3 h4
      · simp at hx
      · simp at hx
      · simp at hx
      · simp at hx
      · rw [Nat.add_comm 1 (groupExtentGo mb ns (bs + n.oSize) (bc + 1) t),
          List.take_succ_cons] at hx
        rcases List.mem_cons.mp hx with rfl | hx
        · exact ⟨by simpa using h1, by simpa using h2⟩
        · exact ih (bs + n.oSize) (bc + 1) x hx

theorem groupExtentGo_bytes (mb : Nat) (ns : String) :
    ∀ (rest : List MOp) (bs bc : Nat), 0 < groupExtentGo mb ns bs bc rest →
      bs + ((rest.take (groupExtentGo mb ns bs bc rest)).map (fun x => x.oSize)).sum ≤ mb := by
  intro rest
  induction rest with
  | nil => intro bs bc h; simp [groupExtentGo] at h
  | cons n t ih =>
      intro bs bc h
      rw [groupExtentGo] at h ⊢
      split_ifs at h ⊢ with h1 h2 h3 h4
      · simp at h
      · simp at h
      · simp at h
      · simp at h
      · rw [Nat.add_comm 1 (groupExtentGo mb ns (bs + n.oSize) (bc + 1) t),
          List.take_succ_cons]
        simp only [List.map_cons, List.sum_cons]
        by_cases hz : groupExtentGo mb ns (bs + n.oSize) (bc + 1) t = 0
        · rw [hz]
          simp only [List.take_zero, List.map_nil, List.sum_nil]
          omega
        · have hih := ih (bs + n.oSize) (bc + 1) (Nat.pos_of_ne_zero hz)
          omega

theorem groupExtentGo_le_length (mb : Nat) (ns : String) :
    ∀ (rest : List MOp) (bs bc : Nat), groupExtentGo mb ns bs bc rest ≤ rest.length := by
  intro rest
  induction rest with
  | nil => intro bs bc; simp [groupExtentGo]
  | cons n t ih =>
      intro bs bc
      rw [groupExtentGo]
      split_ifs <;> simp_all
      have := ih (bs + n.oSize) (bc + 1)
      omega

theorem groupWF_of_extent (mb : Nat) (ops : List MOp) (i : Nat) (entry : MOp) (k : Nat)
    (hins : strHeadIs entry.opType 'i' = true)
    (hcap : entry.isForCappedCollection = false)
    (hk : groupExtentGo mb entry.ns 0 0 (ops.drop (i + 1)) = k)
    (hpos : 0 < k) :
    groupWF mb (entry :: (ops.drop (i + 1)).take k) := by
  have hle : k ≤ (ops.drop (i + 1)).length := by
    rw [← hk]
    exact groupExtentGo_le_length mb entry.ns (ops.drop (i + 1)) 0 0
  have h63 : k ≤ 63 := by
    rcases groupExtentGo_le mb entry.ns (ops.drop (i + 1)) 0 0 with h | h
    · rw [hk] at h; omega
    · rw [hk] at h; omega
  refine ⟨entry, (ops.drop (i + 1)).take k, rfl, ?_, ?_, hins, hcap, ?_, ?_⟩
  · simp only [List.length_cons, List.length_take]
    omega
  · simp only [List.length_cons, List.length_take]
    omega
  · intro x hx
    refine groupExtentGo_take mb entry.ns (ops.drop (i + 1)) 0 0 x ?_
    rw [hk]
    exact hx
  · have hb := groupExtentGo_bytes mb entry.ns (ops.drop (i + 1)) 0 0 (by rw [hk]; exact hpos)
    rw [hk] at hb
    simpa using hb

theorem applyLoop_groups_wf (oracle : ApplyArg → Bool) (mb : Nat) (ops : List MOp) :
    ∀ (i dngb : Nat) (g : List MOp) (r : Bool),
      (ApplyArg.grouped g, r) ∈ (applyLoop oracle mb ops i dngb).1 →
      groupWF mb g := by
  intro i0 dngb0
  induction i0, dngb0 using applyLoop.induct oracle mb ops with
  | case1 i dngb hget =>
      intro g r hmem
      rw [applyLoop_none_eq oracle mb ops i dngb hget] at hmem
      simp at hmem
  | case2 i dngb entry hget k? cutoff hcut grp hsucc ih =>
      intro g r hmem
      have hcut' : (if _h : (strHeadIs entry.opType 'i' && !entry.isForCappedCollection &&
          decide (dngb < i)) = true then
            (if _h2 : 0 < groupExtentGo mb entry.ns 0 0 (ops.drop (i + 1)) then
              some (groupExtentGo mb entry.ns 0 0 (ops.drop (i + 1))) else none)
          else none) = some cutoff := hcut
      have hcond : (strHeadIs entry.opType 'i' && !entry.isForCappedCollection &&
          decide (dngb < i)) = true := by
        by_contra hc
        rw [dif_neg hc] at hcut'
        cases hcut'
      rw [dif_pos hcond] at hcut'
      have hpos : 0 < groupExtentGo mb entry.ns 0 0 (ops.drop (i + 1)) := by
        by_contra hp
        rw [dif_neg hp] at hcut'
        cases hcut'
      rw [dif_pos hpos] at hcut'
      have hke : groupExtentGo mb entry.ns 0 0 (ops.drop (i + 1)) = cutoff := by
        injection hcut'
      rw [applyLoop_group_eq oracle mb ops i dngb entry cutoff hget hcond hke
        (hke ▸ hpos)] at hmem
      rw [if_pos hsucc] at hmem
      rcases List.mem_cons.mp hmem with hhead | htail
      · simp only [Prod.mk.injEq, ApplyArg.grouped.injEq] at hhead
        rcases hhead with ⟨rfl, rfl⟩
        simp only [Bool.and_eq_true] at hcond
        exact groupWF_of_extent mb ops i entry cutoff hcond.1.1
          (by simpa using hcond.1.2) hke (hke ▸ hpos)
      · exact ih g r htail
  | case3 i dngb entry hget k? cutoff hcut grp hfail hsucc ih =>
      intro g r hmem
      have hcut' : (if _h : (strHeadIs entry.opType 'i' && !entry.isForCappedCollection &&
          decide (dngb < i)) = true then
            (if _h2 : 0 < groupExtentGo mb entry.ns 0 0 (ops.drop (i + 1)) then
              some (groupExtentGo mb entry.ns 0 0 (ops.drop (i + 1))) else none)
          else none) = some cutoff := hcut
      have hcond : (strHeadIs entry.opType 'i' && !entry.isForCappedCollection &&
          decide (dngb < i)) = true := by
        by_contra hc
        rw [dif_neg hc] at hcut'
        cases hcut'
      rw [dif_pos hcond] at hcut'
      have hpos : 0 < groupExtentGo mb entry.ns 0 0 (ops.drop (i + 1)) := by
        by_contra hp
        rw [dif_neg hp] at hcut'
        cases hcut'
      rw [dif_pos hpos] at hcut'
      have hke : groupExtentGo mb entry.ns 0 0 (ops.drop (i + 1)) = cutoff := by
        injection hcut'
      rw [applyLoop_group_eq oracle mb ops i dngb entry cutoff hget hcond hke
        (hke ▸ hpos)] at hmem
      rw [if_neg hfail, if_pos hsucc] at hmem
      rcases List.mem_cons.mp hmem with hhead | hmem2
      · simp only [Prod.mk.injEq, ApplyArg.grouped.injEq] at hhead
        rcases hhead with ⟨rfl, rfl⟩
        simp only [Bool.and_eq_true] at hcond
        exact groupWF_of_extent mb ops i entry cutoff hcond.1.1
          (by simpa using hcond.1.2) hke (hke ▸ hpos)
      · rcases List.mem_cons.mp hmem2 with hhead | htail
        · simp at hhead
        · exact ih g r htail
  | case4 i dngb entry hget k? cutoff hcut grp hfail hsfail =>
      intro g r hmem
      have hcut' : (if _h : (strHeadIs entry.opType 'i' && !entry.isForCappedCollection &&
          decide (dngb < i)) = true then
            (if _h2 : 0 < groupExtentGo mb entry.ns 0 0 (ops.drop (i + 1)) then
              some (groupExtentGo mb entry.ns 0 0 (ops.drop (i + 1))) else none)
          else none) = some cutoff := hcut
      have hcond : (strHeadIs entry.opType 'i' && !entry.isForCappedCollection &&
          decide (dngb < i)) = true := by
        by_contra hc
        rw [dif_neg hc] at hcut'
        cases hcut'
      rw [dif_pos hcond] at hcut'
      have hpos : 0 < groupExtentGo mb entry.ns 0 0 (ops.drop (i + 1)) := by
        by_contra hp
        rw [dif_neg hp] at hcut'
        cases hcut'
      rw [dif_pos hpos] at hcut'
      have hke : groupExtentGo mb entry.ns 0 0 (ops.drop (i + 1)) = cutoff := by
        injection hcut'
      rw [applyLoop_group_eq oracle mb ops i dngb entry cutoff hget hcond hke
        (hke ▸ hpos)] at hmem
      rw [if_neg hfail, if_neg hsfail] at hmem
      rcases List.mem_cons.mp hmem with hhead | hmem2
      · simp only [Prod.mk.injEq, ApplyArg.grouped.injEq] at hhead
        rcases hhead with ⟨rfl, rfl⟩
        simp only [Bool.and_eq_true] at hcond
        exact groupWF_of_extent mb ops i entry cutoff hcond.1.1
          (by simpa using hcond.1.2) hke (hke ▸ hpos)
      · simp at hmem2
  | case5 i dngb entry hget k? hnone hsucc ih =>
      intro g r hmem
      have hnone' : (if _h : (strHeadIs entry.opType 'i' && !entry.isForCappedCollection &&
          decide (dngb < i)) = true then
            (if _h2 : 0 < groupExtentGo mb entry.ns 0 0 (ops.drop (i + 1)) then
              some (groupExtentGo mb entry.ns 0 0 (ops.drop (i + 1))) else none)
          else none) = none := hnone
      have hng : (strHeadIs entry.opType 'i' && !entry.isForCappedCollection &&
          decide (dngb < i)) = false
          ∨ groupExtentGo mb entry.ns 0 0 (ops.drop (i + 1)) = 0 := by
        by_cases hc : (strHeadIs entry.opType 'i' && !entry.isForCappedCollection &&
            decide (dngb < i)) = true
        · refine Or.inr ?_
          rw [dif_pos hc] at hnone'
          by_contra hp
          rw [dif_pos (Nat.pos_of_ne_zero hp)] at hnone'
          cases hnone'
        · exact Or.inl (by simpa using hc)
      rw [applyLoop_single_eq oracle mb ops i dngb entry hget hng] at hmem
      rw [if_pos hsucc] at hmem
      rcases List.mem_cons.mp hmem with hhead | htail
      · simp at hhead
      · exact ih g r htail
  | case6 i dngb entry hget k? hnone hsfail =>
      intro g r hmem
      have hnone' : (if _h : (strHeadIs entry.opType 'i' && !entry.isForCappedCollection &&
          decide (dngb < i)) = true then
            (if _h2 : 0 < groupExtentGo mb entry.ns 0 0 (ops.drop (i + 1)) then
              some (groupExtentGo mb entry.ns 0 0 (ops.drop (i + 1))) else none)
          else none) = none := hnone
      have hng : (strHeadIs entry.opType 'i' && !entry.isForCappedCollection &&
          decide (dngb < i)) = false
          ∨ groupExtentGo mb entry.ns 0 0 (ops.drop (i + 1)) = 0 := by
        by_cases hc : (strHeadIs entry.opType 'i' && !entry.isForCappedCollection &&
            decide (dngb < i)) = true
        · refine Or.inr ?_
          rw [dif_pos hc] at hnone'
          by_contra hp
          rw [dif_pos (Nat.pos_of_ne_zero hp)] at hnone'
          cases hnone'
        · exact Or.inl (by simpa using hc)
      rw [applyLoop_single_eq oracle mb ops i dngb entry hget hng] at hmem
      rw [if_neg hsfail] at hmem
      simp at hmem

theorem drop_cons_of_get? (l : List MOp) (j : Nat) (x : MOp) (h : l.get? j = some x) :
    l.drop j = x :: l.drop (j + 1) := by
  rcases List.get?_eq_some.mp h with ⟨hlt, hg⟩
  rw [← List.getElem_cons_drop l j hlt]
  simp [← hg, List.get_eq_getElem]

theorem applyLoop_singles_region (oracle : ApplyArg → Bool) (mb : Nat) (ops : List MOp) :
    ∀ (n j dngb : Nat), dngb + 1 - j ≤ n → j ≤ dngb →
      applyLoop oracle mb ops j dngb =
        (if (singlesRun oracle ((ops.drop j).take (dngb + 1 - j))).2 then
           ((singlesRun oracle ((ops.drop j).take (dngb + 1 - j))).1 ++
              (applyLoop oracle mb ops (dngb + 1) dngb).1,
            (applyLoop oracle mb ops (dngb + 1) dngb).2)
         else ((singlesRun oracle ((ops.drop j).take (dngb + 1 - j))).1, false)) := by
  intro n
  induction n with
  | zero => intro j dngb hle hj; omega
  | succ n ih =>
      intro j dngb hle hj
      cases hget : ops.get? j with
      | none =>
          have hjlen : ops.length ≤ j := List.get?_eq_none.mp hget
          have hd : ops.drop j = [] := List.drop_eq_nil_of_le hjlen
          have hd2 : ops.get? (dngb + 1) = none := List.get?_eq_none.mpr (by omega)
          rw [applyLoop_none_eq oracle mb ops j dngb hget,
              applyLoop_none_eq oracle mb ops (dngb + 1) dngb hd2, hd]
          simp [singlesRun]
      | some entry =>
          have hng : (strHeadIs entry.opType 'i' && !entry.isForCappedCollection &&
              decide (dngb < j)) = false
              ∨ groupExtentGo mb entry.ns 0 0 (ops.drop (j + 1)) = 0 := by
            refine Or.inl ?_
            have hd : decide (dngb < j) = false := by
              simp only [decide_eq_false_iff_not]
              omega
            simp [hd]
          rw [applyLoop_single_eq oracle mb ops j dngb entry hget hng]
          have hseg : (ops.drop j).take (dngb + 1 - j) =
              entry :: (ops.drop (j + 1)).take (dngb - j) := by
            rw [drop_cons_of_get? ops j entry hget]
            have harith : dngb + 1 - j = (dngb - j) + 1 := by omega
            rw [harith, List.take_succ_cons]
          rw [hseg]
          by_cases hs : oracle (.single entry) = true
          · rw [if_pos hs]
            rw [singlesRun]
            rw [if_pos hs]
            by_cases hjd : j = dngb
            · subst hjd
              have h0 : j - j = 0 := by omega
              rw [h0]
              simp only [List.take_zero, singlesRun]
              simp
            · have hj1 : j + 1 ≤ dngb := by omega
              rw [ih (j + 1) dngb (by omega) hj1]
              have harith2 : dngb + 1 - (j + 1) = dngb - j := by omega
              rw [harith2]
              by_cases hs2 : (singlesRun oracle ((ops.drop (j + 1)).take (dngb - j))).2 = true
              · simp [hs2]
              · have hs2' : (singlesRun oracle ((ops.drop (j + 1)).take (dngb - j))).2 = false := by
                  simpa using hs2
                simp [hs2']
          · rw [if_neg hs]
            have hs' : oracle (.single entry) = false := by simpa using hs
            rw [singlesRun]
            rw [if_neg hs]
            simp

/-- C2: in the per-slot apply worker, every grouped insert the worker ever
attempts is well-formed — it starts at an insert op that is not marked for a
capped collection, has at least 2 and at most 64 ops, extends only over
inserts on the same namespace, and its extension payload stays within
`insertVectorMaxBytes` — and whenever a grouped apply fails, the worker
performs exactly one single-op apply of the group's first op and then
applies the remaining group ops one at a time (stopping at the first single
failure), attempting no grouping again until the iterator is past the end of
the failed group. -/
theorem multiSyncApply_noAbort_grouping (oracle : ApplyArg → Bool) (maxBytes : Nat) :
    (∀ (ops g : List MOp) (r : Bool),
        (ApplyArg.grouped g, r) ∈ (multiSyncApply_noAbort oracle maxBytes ops).1 →
        groupWF maxBytes g)
    ∧ (∀ (ops : List MOp) (i dngb : Nat) (entry : MOp) (k : Nat),
        ops.get? i = some entry →
        (strHeadIs entry.opType 'i' && !entry.isForCappedCollection && decide (dngb < i)) = true →
        groupExtentGo maxBytes entry.ns 0 0 (ops.drop (i + 1)) = k →
        0 < k →
        oracle (.grouped (entry :: (ops.drop (i + 1)).take k)) = false →
        applyLoop oracle maxBytes ops i dngb =
          (if (singlesRun oracle (entry :: (ops.drop (i + 1)).take k)).2 then
             ((ApplyArg.grouped (entry :: (ops.drop (i + 1)).take k), false) ::
                (singlesRun oracle (entry :: (ops.drop (i + 1)).take k)).1 ++
                (applyLoop oracle maxBytes ops (i + k + 1) (i + k)).1,
              (applyLoop oracle maxBytes ops (i + k + 1) (i + k)).2)
           else ((ApplyArg.grouped (entry :: (ops.drop (i + 1)).take k), false) ::
                (singlesRun oracle (entry :: (ops.drop (i + 1)).take k)).1, false))) := by
  constructor
  · intro ops g r hmem
    exact applyLoop_groups_wf oracle maxBytes
      (if 1 < ops.length then stableSortByNs ops else ops) 0 0 g r hmem
  · intro ops i dngb entry k hget hcond hk hpos hfail
    rw [applyLoop_group_eq oracle maxBytes ops i dngb entry k hget hcond hk hpos]
    rw [if_neg (by simp [hfail])]
    by_cases hs : oracle (.single entry) = true
    · rw [if_pos hs]
      rw [applyLoop_singles_region oracle maxBytes ops k (i + 1) (i + k) (by omega) (by omega)]
      have harith : (i + k) + 1 - (i + 1) = k := by omega
      rw [harith]
      rw [singlesRun]
      rw [if_pos hs]
      by_cases hs2 : (singlesRun oracle ((ops.drop (i + 1)).take k)).2 = true
      · simp [hs2]
      · have hs2' : (singlesRun oracle ((ops.drop (i + 1)).take k)).2 = false := by
          simpa using hs2
        simp [hs2']
    · have hs' : oracle (.single entry) = false := by simpa using hs
      rw [if_neg hs]
      rw [singlesRun]
      rw [if_neg hs]
      simp

/-- Witness for C2: with three same-namespace inserts, an all-succeeding
oracle produces a well-formed group of the second and third ops (the first
op of a slot is at the cursor and applies alone), and with an oracle that
fails grouped applies, the failed group of ops 2-3 is followed by exactly
the one-by-one single applies of its members. -/
theorem multiSyncApply_noAbort_grouping_witness :
    groupWF 10000 [⟨"db.c", "i", false, 100, 1⟩, ⟨"db.c", "i", false, 100, 2⟩]
    ∧ applyLoop (fun a => match a with | .grouped _ => false | .single _ => true) 10000
        [⟨"db.c", "i", false, 100, 0⟩, ⟨"db.c", "i", false, 100, 1⟩,
          ⟨"db.c", "i", false, 100, 2⟩] 1 0 =
      ([(.grouped [⟨"db.c", "i", false, 100, 1⟩, ⟨"db.c", "i", false, 100, 2⟩], false),
        (.single ⟨"db.c", "i", false, 100, 1⟩, true),
        (.single ⟨"db.c", "i", false, 100, 2⟩, true)], true) := by
  constructor
  · apply (multiSyncApply_noAbort_grouping (fun _ => true) 10000).1
      [⟨"db.c", "i", false, 100, 0⟩, ⟨"db.c", "i", false, 100, 1⟩,
        ⟨"db.c", "i", false, 100, 2⟩] _ true
    have h1 : multiSyncApply_noAbort (fun _ => true) 10000
        [⟨"db.c", "i", false, 100, 0⟩, ⟨"db.c", "i", false, 100, 1⟩,
          ⟨"db.c", "i", false, 100, 2⟩] =
        applyLoop (fun _ => true) 10000
          [⟨"db.c", "i", false, 100, 0⟩, ⟨"db.c", "i", false, 100, 1⟩,
            ⟨"db.c", "i", false, 100, 2⟩] 0 0 := rfl
    rw [h1]
    rw [applyLoop_single_eq (fun _ => true) 10000
      [⟨"db.c", "i", false, 100, 0⟩, ⟨"db.c", "i", false, 100, 1⟩,
        ⟨"db.c", "i", false, 100, 2⟩] 0 0 ⟨"db.c", "i", false, 100, 0⟩ rfl
      (Or.inl (by decide))]
    rw [applyLoop_group_eq (fun _ => true) 10000
      [⟨"db.c", "i", false, 100, 0⟩, ⟨"db.c", "i", false, 100, 1⟩,
        ⟨"db.c", "i", false, 100, 2⟩] 1 0 ⟨"db.c", "i", false, 100, 1⟩ 1 rfl (by decide)
      (by decide) (by decide)]
    rw [applyLoop_none_eq (fun _ => true) 10000
      [⟨"db.c", "i", false, 100, 0⟩, ⟨"db.c", "i", false, 100, 1⟩,
        ⟨"db.c", "i", false, 100, 2⟩] 3 0 rfl]
    simp
  · refine ((multiSyncApply_noAbort_grouping
        (fun a => match a with | .grouped _ => false | .single _ => true) 10000).2
        [⟨"db.c", "i", false, 100, 0⟩, ⟨"db.c", "i", false, 100, 1⟩,
          ⟨"db.c", "i", false, 100, 2⟩] 1 0 ⟨"db.c", "i", false, 100, 1⟩ 1 rfl (by decide)
        (by decide) (by decide) (by decide)).trans ?_
    rw [applyLoop_none_eq (fun a => match a with | .grouped _ => false | .single _ => true) 10000
      [⟨"db.c", "i", false, 100, 0⟩, ⟨"db.c", "i", false, 100, 1⟩,
        ⟨"db.c", "i", false, 100, 2⟩] 3 2 rfl]
    decide

end MongoRepl
